import Mathlib

/-!
A shallow embedding of the RustyHashBackUp backup engine
(src/service/backup.rs, src/service/hash.rs, src/models/dry_run_mode.rs,
src/repo/sqlite.rs, src/utils/directory.rs) together with proofs about it.

Modelling conventions:
* file contents are byte lists (`List Nat`), the filesystem is an association
  list from path strings to nodes; a `denied` node is a path on which
  `fs::exists` / metadata queries fail with an error;
* the BLAKE2b-512 compression itself is kept abstract as a parameter
  `digest : List Nat → List Nat`; everything the claims say about hashing
  concerns which bytes are fed to it and how the digest is hex-encoded;
* paths are '/'-separated strings, `canon` abstracts `Path::canonicalize`
  (`none` models a canonicalization failure, on which the code falls back to
  the raw path);
* the SQLite catalog is a pair of row lists with an autoincrement counter;
  the upsert statements of src/repo/sqlite.rs are modelled literally;
* the rayon parallel loops of `backup_files` are modelled as sequential folds
  over the work lists; every catalog/filesystem effect is threaded explicitly.
-/

deriving instance DecidableEq for Except

namespace RHB

/-! ### Hex encoding (the `hex::encode` of hash.rs) -/

def hexDigit (n : Nat) : Char :=
  if n < 10 then Char.ofNat (48 + n) else Char.ofNat (87 + n)

def hexByte (b : Nat) : List Char :=
  [hexDigit ((b % 256) / 16), hexDigit (b % 16)]

def hexEncode (bs : List Nat) : String :=
  String.mk (bs.map hexByte).flatten

/-! ### hash.rs: `hasher` and `hash_file`

`hasher` reads the stream in 8192-byte chunks, feeding every chunk read to
the digest, and stops once the cumulative count reaches `max_bytes` or at
EOF.  `hasherLoop` returns exactly the bytes fed to the digest; each `read`
on the buffered sequential file returns `min 8192 remaining` bytes. -/

def hasherLoopAux : Nat → List Nat → Nat → Nat → List Nat
  | 0, _, _, _ => []
  | fuel + 1, rest, bytesRead, maxBytes =>
    if rest = [] then []
    else if bytesRead + min 8192 rest.length ≥ maxBytes then
      rest.take (min 8192 rest.length)
    else
      rest.take (min 8192 rest.length) ++
        hasherLoopAux fuel (rest.drop (min 8192 rest.length))
          (bytesRead + min 8192 rest.length) maxBytes

/-- Each loop iteration consumes at least one byte, so `rest.length` rounds
of fuel always suffice; the fuel never runs out on a non-empty rest. -/
def hasherLoop (rest : List Nat) (bytesRead maxBytes : Nat) : List Nat :=
  hasherLoopAux rest.length rest bytesRead maxBytes

def hasher (digest : List Nat → List Nat) (content : List Nat) (maxBytes : Nat) : String :=
  hexEncode (digest (hasherLoop content 0 maxBytes))

/-! ### Filesystem model -/

structure FileMeta where
  content : List Nat
  mtime : Nat
deriving DecidableEq

inductive FsNode where
  | file (meta : FileMeta)
  | denied
deriving DecidableEq

abbrev FS := List (String × FsNode)

def fsLookup : FS → String → Option FsNode
  | [], _ => none
  | (q, n) :: rest, p => if q = p then some n else fsLookup rest p

def fsRead (fs : FS) (p : String) : Option FileMeta :=
  match fsLookup fs p with
  | some (.file m) => some m
  | _ => none

/-- `fs::exists` as a fallible query: a `denied` node makes it return `Err`. -/
def fsExistsResult (fs : FS) (p : String) : Except Unit Bool :=
  match fsLookup fs p with
  | some .denied => .error ()
  | some (.file _) => .ok true
  | none => .ok false

/-- `fs::exists(p).unwrap_or(false)` as used throughout backup.rs. -/
def fsExists (fs : FS) (p : String) : Bool :=
  match fsExistsResult fs p with
  | .ok b => b
  | .error _ => false

def fsRemove (fs : FS) (p : String) : FS :=
  fs.filter (fun e => !(e.1 = p : Bool))

def fsWrite (fs : FS) (p : String) (m : FileMeta) : FS :=
  (p, .file m) :: fsRemove fs p

/-! ### Error model (src/models/error.rs, the variants the engine uses) -/

inductive BackupError where
  | DirectoryRead (msg : String)
  | DatabaseQuery (operation : String)
  | HashError (path : String)
  | MetadataError (path : String)
  | FileCopy (src dst : String)
deriving DecidableEq

/-! ### Catalog rows (src/models/{source_row,backup_row,backed_up_file}.rs) -/

structure SourceRow where
  id : Nat
  file_name : String
  file_path : String
  hash : String
  file_size : Nat
  last_modified : Nat
deriving DecidableEq

structure BackupRow where
  source_id : Nat
  file_name : String
  file_path : String
  last_modified : Nat
deriving DecidableEq

structure BackedUpFile where
  file_name : String
  file_path : String
  last_modified : Nat
  hash : String
deriving DecidableEq

structure Catalog where
  sources : List SourceRow
  backups : List BackupRow
  nextId : Nat
deriving DecidableEq

/-! ### Catalog operations (src/repo/sqlite.rs) -/

def select_source (cat : Catalog) (name path : String) : Option SourceRow :=
  cat.sources.find? (fun r => r.file_name == name && r.file_path == path)

/-- `SELECT bf.*, sf.Hash FROM Backup_Files bf LEFT JOIN Source_Files sf …`:
when the joined source row is missing the NULL hash fails to decode into a
`String`, which surfaces as a `rusqlite` error. -/
def select_backed_up_file (cat : Catalog) (name path : String) :
    Except Unit (Option BackedUpFile) :=
  match cat.backups.find? (fun b => b.file_name == name && b.file_path == path) with
  | none => .ok none
  | some b =>
    match cat.sources.find? (fun s => s.id == b.source_id) with
    | some s => .ok (some ⟨b.file_name, b.file_path, b.last_modified, s.hash⟩)
    | none => .error ()

/-- `INSERT … ON CONFLICT (File_Name, File_Path) DO UPDATE … RETURNING ID`. -/
def insert_source_row (cat : Catalog) (row : SourceRow) : Nat × Catalog :=
  match select_source cat row.file_name row.file_path with
  | some existing =>
    (existing.id,
     { cat with
        sources := cat.sources.map (fun r =>
          if r.file_name == row.file_name && r.file_path == row.file_path then
            { r with hash := row.hash, file_size := row.file_size,
                     last_modified := row.last_modified }
          else r) })
  | none =>
    (cat.nextId,
     { cat with
        sources := cat.sources ++ [{ row with id := cat.nextId }],
        nextId := cat.nextId + 1 })

def update_source_last_modified (cat : Catalog) (rowId : Nat) (lm : Nat) : Catalog :=
  { cat with
     sources := cat.sources.map (fun r =>
       if r.id == rowId then { r with last_modified := lm } else r) }

def update_source_row (cat : Catalog) (rowId : Nat) (hash : String)
    (fileSize : Nat) (lm : Nat) : Catalog :=
  { cat with
     sources := cat.sources.map (fun r =>
       if r.id == rowId then
         { r with hash := hash, file_size := fileSize, last_modified := lm }
       else r) }

/-- `INSERT INTO Backup_Files … ON CONFLICT (File_Name, File_Path) DO UPDATE
SET Source_ID = excluded.Source_ID, Last_Modified = excluded.Last_Modified`. -/
def insert_backup_row (cat : Catalog) (row : BackupRow) : Catalog :=
  match cat.backups.find? (fun b =>
      b.file_name == row.file_name && b.file_path == row.file_path) with
  | some _ =>
    { cat with
       backups := cat.backups.map (fun b =>
         if b.file_name == row.file_name && b.file_path == row.file_path then
           { b with source_id := row.source_id, last_modified := row.last_modified }
         else b) }
  | none => { cat with backups := cat.backups ++ [row] }

/-! ### Configuration and dry-run mode
(src/models/config.rs, src/models/dry_run_mode.rs) -/

structure Config where
  max_mebibytes_for_hash : Nat
  backup_destinations : List String
  skip_source_hash_check_if_newer : Bool
  force_overwrite_backup : Bool
  overwrite_backup_if_existing_is_newer : Bool
deriving DecidableEq

inductive DryRunMode where
  | None
  | Quick
  | Full
deriving DecidableEq

def DryRunMode.is_dry_run : DryRunMode → Bool
  | .Quick => true
  | .Full => true
  | .None => false

def DryRunMode.is_quick : DryRunMode → Bool
  | .Quick => true
  | _ => false

def DryRunMode.should_hash : DryRunMode → Bool
  | .Quick => false
  | _ => true

def DryRunMode.should_copy_files : DryRunMode → Bool
  | .None => true
  | _ => false

def DryRunMode.should_update_database : DryRunMode → Bool
  | .None => true
  | _ => false

/-! ### Path model
'/'-separated path strings; `pathFileName` / `pathParent` model
`Path::file_name` / `Path::parent` on multi-component paths, `pathJoin`
models `Path::join`, `trimStartMatches` models `str::trim_start_matches`
(which strips the pattern repeatedly), and `pathStartsWith` models the
component-wise `Path::starts_with`. -/

/-- `String.splitOn` for a single-character separator, implemented by
structural recursion over the character list. -/
def splitOnCharAux (c : Char) : List Char → List Char → List String
  | [], acc => [String.mk acc.reverse]
  | a :: rest, acc =>
    if a == c then String.mk acc.reverse :: splitOnCharAux c rest []
    else splitOnCharAux c rest (a :: acc)

def pathSplit (p : String) : List String := splitOnCharAux '/' p.data []

/-- `String.intercalate` by structural recursion. -/
def joinWith (sep : String) : List String → String
  | [] => ""
  | [a] => a
  | a :: b :: rest => a ++ sep ++ joinWith sep (b :: rest)

def strHeadIs (s : String) (c : Char) : Bool :=
  match s.data with
  | [] => false
  | a :: _ => a == c

def strLastIs (s : String) (c : Char) : Bool :=
  match s.data.getLast? with
  | some a => a == c
  | none => false

/-- `str::contains` for a character pattern. -/
def strContainsChar (s : String) (c : Char) : Bool := s.data.contains c

def pathFileName (p : String) : Option String :=
  match (pathSplit p).getLast? with
  | some s => if s = "" ∨ s = ".." then none else some s
  | none => none

def pathParent (p : String) : Option String :=
  if p = "" ∨ p = "/" then none
  else some (joinWith "/" (pathSplit p).dropLast)

def pathJoin (a b : String) : String :=
  if b = "" then a
  else if strHeadIs b '/' then b
  else if a = "" then b
  else if strLastIs a '/' then a ++ b
  else a ++ "/" ++ b

/-- `str::trim_start_matches` (which strips the pattern repeatedly), via a
fuel of `s.length`: each successful strip removes at least one character, so
the fuel never runs out. -/
def trimStartAux (pat : List Char) : Nat → List Char → List Char
  | 0, s => s
  | fuel + 1, s =>
    if !pat.isEmpty && pat.isPrefixOf s then trimStartAux pat fuel (s.drop pat.length)
    else s

def trimStartMatches (s pat : String) : String :=
  String.mk (trimStartAux pat.data s.data.length s.data)

def listContainsSub (pat : List Char) : List Char → Bool
  | [] => pat.isPrefixOf []
  | a :: rest => pat.isPrefixOf (a :: rest) || listContainsSub pat rest

/-- `str::contains` for a multi-character pattern. -/
def containsSub (s pat : String) : Bool := listContainsSub pat.data s.data

def pathComponents (p : String) : List String :=
  (if strHeadIs p '/' then ["/"] else []) ++
    (pathSplit p).filter (fun c => c != "" && c != ".")

def pathStartsWith (p base : String) : Bool :=
  (pathComponents base).isPrefixOf (pathComponents p)

/-- `Path::canonicalize().unwrap_or_else(|_| path)`; `canon` abstracts the
symlink-resolving canonicalization of the real filesystem. -/
def canonOr (canon : String → Option String) (p : String) : String :=
  (canon p).getD p

/-! ### src/utils/directory.rs metadata helpers -/

def get_file_size (fs : FS) (file : String) : Except BackupError Nat :=
  match fsRead fs file with
  | some meta => .ok meta.content.length
  | none => .error (.MetadataError file)

def get_file_last_modified (fs : FS) (file : String) : Except BackupError Nat :=
  match fsRead fs file with
  | some meta => .ok meta.mtime
  | none => .error (.MetadataError file)

/-! ### hash.rs: `hash_file` -/

def hash_file (digest : List Nat → List Nat) (fs : FS) (file : String)
    (max_mebibytes : Nat) : Except BackupError String :=
  match fsRead fs file with
  | none => .error (.HashError file)
  | some meta => .ok (hasher digest meta.content (max_mebibytes * 1048576))

/-! ### src/models/prepped_backup.rs -/

structure PreppedBackup where
  db_id : Nat
  source_file : String
  file_name : String
  backup_paths : List String
  hash : String
  file_size : Nat
  source_last_modified_date : Nat
  updated : Bool
deriving DecidableEq

/-! ### backup.rs: the classifier -/

/-- `get_is_source_file_updated` (backup.rs).  Returns the Result together
with the catalog after its writes; every error path leaves the catalog as it
found it, matching the code (all writes directly precede an `Ok`). -/
def get_is_source_file_updated (digest : List Nat → List Nat) (cfg : Config)
    (mode : DryRunMode) (cat : Catalog) (fs : FS) (source_candidate : SourceRow)
    (backup_candidate : String) (candidate_last_modified : Nat) :
    Except BackupError (Bool × String) × Catalog :=
  match get_file_size fs backup_candidate with
  | .error e => (.error e, cat)
  | .ok backup_file_size =>
    if source_candidate.last_modified < candidate_last_modified then
      if cfg.skip_source_hash_check_if_newer then
        (.ok (true, source_candidate.hash), cat)
      else
        match (if mode.should_hash then
                 hash_file digest fs backup_candidate cfg.max_mebibytes_for_hash
               else .ok source_candidate.hash) with
        | .error e => (.error e, cat)
        | .ok hash =>
          if hash == source_candidate.hash && backup_file_size == source_candidate.file_size then
            (.ok (false, hash),
             if mode.should_update_database then
               update_source_last_modified cat source_candidate.id candidate_last_modified
             else cat)
          else
            (.ok (true, hash),
             if mode.should_update_database then
               update_source_row cat source_candidate.id hash backup_file_size
                 candidate_last_modified
             else cat)
    else (.ok (false, source_candidate.hash), cat)

/-- `get_possible_backups`: the per-destination loop with the
canonicalization guard. -/
def possible_backups_loop (canon : String → Option String)
    (relative_path file_name : String) :
    List String → Except BackupError (List String)
  | [] => .ok []
  | destination :: rest =>
    let backup_path :=
      pathJoin (pathJoin destination (trimStartMatches relative_path "/")) file_name
    let canonical_dest := canonOr canon destination
    let ok : Bool :=
      match pathParent backup_path with
      | some backup_parent => pathStartsWith (canonOr canon backup_parent) canonical_dest
      | none => true
    if ok then
      match possible_backups_loop canon relative_path file_name rest with
      | .error e => .error e
      | .ok paths => .ok (backup_path :: paths)
    else
      .error (.DirectoryRead
        ("Security: Backup path escapes destination directory. Destination: " ++ destination))

/-- The relative path computed at the top of `get_possible_backups`: the
candidate's parent directory with the source root's parent (or, for a
parentless root, the root itself) stripped as a literal prefix. -/
def relPathOf (file_path shared_path : String) : String :=
  match pathParent shared_path with
  | some parent => trimStartMatches file_path parent
  | none => trimStartMatches file_path shared_path

def get_possible_backups (canon : String → Option String)
    (file_name file_path shared_path : String) (destinations : List String) :
    Except BackupError (List String) :=
  let relative_path := relPathOf file_path shared_path
  if containsSub relative_path ".." then
    .error (.DirectoryRead ("Path traversal detected in relative path: " ++ relative_path))
  else if containsSub file_name ".." || strContainsChar file_name '/' then
    .error (.DirectoryRead ("Invalid file name detected: " ++ file_name))
  else
    possible_backups_loop canon relative_path file_name destinations

/-- `prepare_single_candidate` (backup.rs).  The catalog is returned even on
error because a source-row insert can precede a later failure
(`get_possible_backups`). -/
def prepare_single_candidate (digest : List Nat → List Nat)
    (canon : String → Option String) (cfg : Config) (mode : DryRunMode)
    (cat : Catalog) (fs : FS) (candidate shared_path : String) :
    Except BackupError PreppedBackup × Catalog :=
  match pathFileName candidate with
  | none => (.error (.DirectoryRead ("No filename for " ++ candidate)), cat)
  | some filename =>
    match pathParent candidate with
    | none => (.error (.DirectoryRead ("No parent path for " ++ candidate)), cat)
    | some filepath =>
      match get_file_last_modified fs candidate with
      | .error e => (.error e, cat)
      | .ok fs_last_modified =>
        match get_file_size fs candidate with
        | .error e => (.error e, cat)
        | .ok fs_file_size =>
          let db_source_record_option :=
            if mode.should_update_database then select_source cat filename filepath
            else none
          let step : Except BackupError (Bool × String × Nat) × Catalog :=
            match db_source_record_option with
            | some db_source_record =>
              match get_is_source_file_updated digest cfg mode cat fs db_source_record
                      candidate fs_last_modified with
              | (.error e, cat') => (.error e, cat')
              | (.ok (updated, hash), cat') => (.ok (updated, hash, db_source_record.id), cat')
            | none =>
              match (if mode.should_hash then
                       hash_file digest fs candidate cfg.max_mebibytes_for_hash
                     else .ok "dry-run-quick-no-hash") with
              | .error e => (.error e, cat)
              | .ok hash =>
                match (if mode.should_update_database then
                         insert_source_row cat
                           ⟨0, filename, filepath, hash, fs_file_size, fs_last_modified⟩
                       else (0, cat)) with
                | (source_id, cat') => (.ok (true, hash, source_id), cat')
          match step with
          | (.error e, cat') => (.error e, cat')
          | (.ok (updated, hash, source_id), cat') =>
            match get_possible_backups canon filename filepath shared_path
                    cfg.backup_destinations with
            | .error e => (.error e, cat')
            | .ok backup_paths =>
              (.ok { db_id := source_id, source_file := candidate, file_name := filename,
                     backup_paths := backup_paths, hash := hash, file_size := fs_file_size,
                     source_last_modified_date := fs_last_modified, updated := updated },
               cat')

/-! ### backup.rs: the copy engine -/

def create_backup_row (fs : FS) (prepped : PreppedBackup) (backup_path : String) :
    Except BackupError BackupRow :=
  match get_file_last_modified fs backup_path with
  | .error e => .error e
  | .ok last_modified =>
    match pathParent backup_path with
    | none => .error (.DirectoryRead ("No parent for " ++ backup_path))
    | some file_path => .ok ⟨prepped.db_id, prepped.file_name, file_path, last_modified⟩

def existing_file_needs_updated (digest : List Nat → List Nat) (cfg : Config)
    (mode : DryRunMode) (cat : Catalog) (fs : FS) (prepped : PreppedBackup)
    (back_up_path : String) : Except BackupError Bool × Catalog :=
  if !fsExists fs back_up_path then (.ok true, cat)
  else if mode.is_quick then
    match get_file_size fs back_up_path with
    | .error e => (.error e, cat)
    | .ok fs_file_size => (.ok (prepped.file_size != fs_file_size), cat)
  else
    match pathFileName back_up_path with
    | none => (.error (.DirectoryRead ("No filename for " ++ back_up_path)), cat)
    | some back_up_filename =>
      match pathParent back_up_path with
      | none => (.error (.DirectoryRead ("No parent for " ++ back_up_path)), cat)
      | some back_up_filepath =>
        match get_file_last_modified fs back_up_path with
        | .error e => (.error e, cat)
        | .ok fs_last_modified =>
          match get_file_size fs back_up_path with
          | .error e => (.error e, cat)
          | .ok fs_file_size =>
            match (if mode.should_update_database then
                     match select_backed_up_file cat back_up_filename back_up_filepath with
                     | .error _ =>
                       Except.error (BackupError.DatabaseQuery
                         ("select backup " ++ back_up_filepath ++ "/" ++ back_up_filename))
                     | .ok o => Except.ok o
                   else Except.ok Option.none) with
            | .error e => (.error e, cat)
            | .ok (some backup_file) =>
              if backup_file.last_modified ≤ fs_last_modified then
                if prepped.file_size == fs_file_size then
                  match hash_file digest fs back_up_path cfg.max_mebibytes_for_hash with
                  | .error e => (.error e, cat)
                  | .ok fs_hash =>
                    if backup_file.hash == fs_hash then (.ok false, cat)
                    else (.ok true, cat)
                else (.ok true, cat)
              else if cfg.overwrite_backup_if_existing_is_newer then (.ok true, cat)
              else (.ok false, cat)
            | .ok none =>
              if prepped.file_size == fs_file_size then
                match hash_file digest fs back_up_path cfg.max_mebibytes_for_hash with
                | .error e => (.error e, cat)
                | .ok fs_hash =>
                  if prepped.hash == fs_hash then
                    if mode.should_update_database then
                      match create_backup_row fs prepped back_up_path with
                      | .error e => (.error e, cat)
                      | .ok row => (.ok false, insert_backup_row cat row)
                    else (.ok false, cat)
                  else (.ok true, cat)
              else (.ok true, cat)

def is_backup_required (digest : List Nat → List Nat) (cfg : Config)
    (mode : DryRunMode) (cat : Catalog) (fs : FS) (prepped : PreppedBackup)
    (back_up_path : String) : Except BackupError Bool × Catalog :=
  if !fsExists fs back_up_path then (.ok true, cat)
  else existing_file_needs_updated digest cfg mode cat fs prepped back_up_path

/-- `backup_file` (backup.rs).  Returns the catalog/filesystem after its side
effects together with the error, if any, since a failed copy still leaves its
effects behind (`now` is the copy timestamp the filesystem assigns). -/
def backup_file (digest : List Nat → List Nat) (cfg : Config) (mode : DryRunMode)
    (now : Nat) (cat : Catalog) (fs : FS) (prepped : PreppedBackup)
    (backup_path : String) : Catalog × FS × Option BackupError :=
  if !mode.should_copy_files then (cat, fs, none)
  else
    match pathParent backup_path with
    | none => (cat, fs, some (.DirectoryRead ("No parent directory for " ++ backup_path)))
    | some _parent =>
      match fsRead fs prepped.source_file with
      | none => (cat, fs, some (.FileCopy prepped.source_file backup_path))
      | some src_meta =>
        let fs1 := fsWrite fs backup_path ⟨src_meta.content, now⟩
        match hash_file digest fs1 backup_path cfg.max_mebibytes_for_hash with
        | .error e => (cat, fs1, some e)
        | .ok backup_hash =>
          if backup_hash == prepped.hash then
            match create_backup_row fs1 prepped backup_path with
            | .error e => (cat, fs1, some e)
            | .ok row => (insert_backup_row cat row, fs1, none)
          else
            (cat, fsRemove fs1 backup_path,
             some (.DirectoryRead ("Backup verification failed for " ++ backup_path)))

/-! ### backup.rs: `backup_files` (the run loops, modelled sequentially) -/

/-- The body of the per-destination loop of `backup_files`.  Note the
`if let Ok(required) = is_backup_required(…)` of the code: an error from the
should-copy decision is silently dropped. -/
def process_one_destination (digest : List Nat → List Nat) (cfg : Config)
    (mode : DryRunMode) (now : Nat) (st : Catalog × FS × List BackupError)
    (prepped : PreppedBackup) (backup_path : String) :
    Catalog × FS × List BackupError :=
  match st with
  | (cat, fs, errs) =>
    if cfg.force_overwrite_backup then
      if mode.should_copy_files then
        match backup_file digest cfg mode now cat fs prepped backup_path with
        | (cat', fs', some e) => (cat', fs', errs ++ [e])
        | (cat', fs', none) => (cat', fs', errs)
      else (cat, fs, errs)
    else
      match is_backup_required digest cfg mode cat fs prepped backup_path with
      | (.error _, cat') => (cat', fs, errs)
      | (.ok required, cat') =>
        if required then
          if mode.should_copy_files then
            match backup_file digest cfg mode now cat' fs prepped backup_path with
            | (cat'', fs', some e) => (cat'', fs', errs ++ [e])
            | (cat'', fs', none) => (cat'', fs', errs)
          else (cat', fs, errs)
        else (cat', fs, errs)

def process_candidate_backups (digest : List Nat → List Nat) (cfg : Config)
    (mode : DryRunMode) (now : Nat) (st : Catalog × FS × List BackupError)
    (prepped : PreppedBackup) : Catalog × FS × List BackupError :=
  prepped.backup_paths.foldl
    (fun st p => process_one_destination digest cfg mode now st prepped p) st

/-- `prepare_backup_candidates` over the flattened candidate list
(`(shared_path, candidate)` pairs); per-candidate errors are accumulated and
the function still succeeds. -/
def prepare_backup_candidates (digest : List Nat → List Nat)
    (canon : String → Option String) (cfg : Config) (mode : DryRunMode)
    (cat : Catalog) (fs : FS) (cands : List (String × String)) :
    Catalog × List PreppedBackup × List BackupError :=
  cands.foldl
    (fun acc sc =>
      match acc with
      | (cat, ps, errs) =>
        match prepare_single_candidate digest canon cfg mode cat fs sc.2 sc.1 with
        | (.ok p, cat') => (cat', ps ++ [p], errs)
        | (.error e, cat') => (cat', ps, errs ++ [e]))
    (cat, [], [])

/-- `backup_files`: prepare then copy; returns the final catalog and
filesystem with the preparation-phase and copy-phase error accumulators.
The run itself always returns `Ok(())`. -/
def backup_files (digest : List Nat → List Nat) (canon : String → Option String)
    (cfg : Config) (mode : DryRunMode) (now : Nat) (cat : Catalog) (fs : FS)
    (cands : List (String × String)) :
    Catalog × FS × List BackupError × List BackupError :=
  match prepare_backup_candidates digest canon cfg mode cat fs cands with
  | (cat1, preppeds, prepErrs) =>
    match preppeds.foldl (process_candidate_backups digest cfg mode now) (cat1, fs, []) with
    | (cat2, fs2, copyErrs) => (cat2, fs2, prepErrs, copyErrs)

/-! ## Basic lemmas -/

theorem hasherLoopAux_nil (fuel bytesRead maxBytes : Nat) :
    hasherLoopAux fuel [] bytesRead maxBytes = [] := by
  cases fuel <;> simp [hasherLoopAux]

theorem hasherLoopAux_eq_take (fuel : Nat) :
    ∀ (rest : List Nat) (bytesRead maxBytes : Nat), rest.length ≤ fuel →
      bytesRead < maxBytes → 8192 ∣ (maxBytes - bytesRead) →
      hasherLoopAux fuel rest bytesRead maxBytes = rest.take (maxBytes - bytesRead) := by
  induction fuel with
  | zero =>
    intro rest bytesRead maxBytes hfuel hlt hdvd
    have : rest = [] := List.eq_nil_of_length_eq_zero (by omega)
    subst this
    simp [hasherLoopAux]
  | succ fuel ih =>
    intro rest bytesRead maxBytes hfuel hlt hdvd
    rw [hasherLoopAux]
    by_cases hnil : rest = []
    · simp [hnil]
    · rw [if_neg hnil]
      have hlen : 0 < rest.length := List.length_pos.mpr hnil
      have hR : 0 < maxBytes - bytesRead := by omega
      have h8 : 8192 ≤ maxBytes - bytesRead := Nat.le_of_dvd hR hdvd
      by_cases hge : bytesRead + min 8192 rest.length ≥ maxBytes
      · rw [if_pos hge]
        have : min 8192 rest.length = maxBytes - bytesRead := by omega
        rw [this]
      · rw [if_neg hge]
        by_cases hshort : rest.length ≤ 8192
        · have hcnt : min 8192 rest.length = rest.length := by omega
          rw [hcnt, List.drop_length, hasherLoopAux_nil]
          have h1 : rest.take rest.length = rest := List.take_of_length_le (Nat.le_refl _)
          have h2 : rest.take (maxBytes - bytesRead) = rest :=
            List.take_of_length_le (by omega)
          rw [h1, h2, List.append_nil]
        · have hcnt : min 8192 rest.length = 8192 := by omega
          rw [hcnt]
          have hrec := ih (rest.drop 8192) (bytesRead + 8192) maxBytes
            (by simp only [List.length_drop]; omega) (by omega) (by
              have : maxBytes - (bytesRead + 8192) = (maxBytes - bytesRead) - 8192 := by
                omega
              rw [this]
              exact Nat.dvd_sub' hdvd (Nat.dvd_refl 8192))
          rw [hrec]
          have hsplit : maxBytes - bytesRead = 8192 + (maxBytes - (bytesRead + 8192)) := by
            omega
          rw [hsplit, List.take_add]

/-- The chunked read loop of `hasher` feeds exactly the first
`maxBytes` bytes (clamped at EOF) to the digest whenever the byte bound is a
multiple of the 8192-byte chunk size. -/
theorem hasherLoop_eq_take (rest : List Nat) (bytesRead maxBytes : Nat)
    (hlt : bytesRead < maxBytes) (hdvd : 8192 ∣ (maxBytes - bytesRead)) :
    hasherLoop rest bytesRead maxBytes = rest.take (maxBytes - bytesRead) :=
  hasherLoopAux_eq_take rest.length rest bytesRead maxBytes (Nat.le_refl _) hlt hdvd

theorem fsLookup_fsRemove_self (fs : FS) (p : String) :
    fsLookup (fsRemove fs p) p = none := by
  induction fs with
  | nil => rfl
  | cons e t ih =>
    obtain ⟨a, n⟩ := e
    rw [fsRemove, List.filter_cons]
    by_cases ha : a = p
    · rw [if_neg (by simp [ha])]
      exact ih
    · rw [if_pos (by simp [ha]), fsLookup, if_neg ha]
      exact ih

theorem fsLookup_fsRemove_ne (fs : FS) (p q : String) (h : q ≠ p) :
    fsLookup (fsRemove fs p) q = fsLookup fs q := by
  induction fs with
  | nil => rfl
  | cons e t ih =>
    obtain ⟨a, n⟩ := e
    rw [fsRemove, List.filter_cons]
    by_cases ha : a = p
    · rw [if_neg (by simp [ha])]
      rw [show fsLookup ((a, n) :: t) q = fsLookup t q from by
        rw [fsLookup, if_neg (by rw [ha]; exact fun hc => h hc.symm)]]
      exact ih
    · rw [if_pos (by simp [ha]), fsLookup, fsLookup]
      by_cases haq : a = q
      · rw [if_pos haq, if_pos haq]
      · rw [if_neg haq, if_neg haq]
        exact ih

theorem fsLookup_fsWrite_self (fs : FS) (p : String) (m : FileMeta) :
    fsLookup (fsWrite fs p m) p = some (.file m) := by
  rw [fsWrite, fsLookup, if_pos rfl]

theorem fsLookup_fsWrite_ne (fs : FS) (p q : String) (m : FileMeta) (h : q ≠ p) :
    fsLookup (fsWrite fs p m) q = fsLookup fs q := by
  rw [fsWrite, fsLookup, if_neg (fun hc => h hc.symm)]
  exact fsLookup_fsRemove_ne fs p q h

def isLowerHexDigit (c : Char) : Bool :=
  ('0' ≤ c && c ≤ '9') || ('a' ≤ c && c ≤ 'f')

theorem hexDigit_lower : ∀ k, k < 16 → isLowerHexDigit (hexDigit k) = true := by
  decide

theorem hexEncode_length (bs : List Nat) : (hexEncode bs).length = 2 * bs.length := by
  show ((bs.map hexByte).flatten).length = 2 * bs.length
  induction bs with
  | nil => simp
  | cons b t ih =>
    simp only [List.map_cons, List.flatten_cons, List.length_append, ih, hexByte,
      List.length_cons, List.length_nil]
    omega

theorem hexEncode_lower (bs : List Nat) :
    (hexEncode bs).data.all isLowerHexDigit = true := by
  show ((bs.map hexByte).flatten).all isLowerHexDigit = true
  rw [List.all_eq_true]
  intro c hc
  rw [List.mem_flatten] at hc
  obtain ⟨l, hl, hcl⟩ := hc
  rw [List.mem_map] at hl
  obtain ⟨b, _, rfl⟩ := hl
  simp only [hexByte, List.mem_cons, List.not_mem_nil, or_false] at hcl
  rcases hcl with rfl | rfl
  · exact hexDigit_lower _ (by omega)
  · exact hexDigit_lower _ (by omega)

/-! ## C8: `hash_file` hashes exactly the bounded prefix -/

/-- C8: for every readable file and bound `m = max_mebibytes_for_hash`
(positive, as config validation requires), `hash_file` feeds the BLAKE2b
digest exactly the first `min(file_size, m × 1048576)` bytes of the file —
the 8 KiB chunked loop stops at the byte cap or EOF, whichever comes first —
and returns the lowercase hex digest (128 characters when the digest is the
64-byte BLAKE2b-512 output); it returns a hash error when the open fails. -/
theorem hash_file_bounded_read (digest : List Nat → List Nat) (fs : FS)
    (p : String) (m : Nat) (hm : 1 ≤ m) :
    (∀ meta, fsRead fs p = some meta →
       hash_file digest fs p m =
         .ok (hexEncode (digest (meta.content.take (min meta.content.length (m * 1048576))))) ∧
       ((digest (meta.content.take (min meta.content.length (m * 1048576)))).length = 64 →
        ∀ s, hash_file digest fs p m = .ok s →
          s.length = 128 ∧ s.data.all isLowerHexDigit = true)) ∧
    (fsRead fs p = none → hash_file digest fs p m = .error (.HashError p)) := by
  constructor
  · intro meta hmeta
    have hfeed : hasherLoop meta.content 0 (m * 1048576) =
        meta.content.take (min meta.content.length (m * 1048576)) := by
      rw [hasherLoop_eq_take meta.content 0 (m * 1048576) (by positivity)
        (by simpa using Dvd.intro (m * 128) (by ring))]
      rw [Nat.sub_zero]
      rw [List.take_eq_take]
      omega
    have hok : hash_file digest fs p m =
        .ok (hexEncode (digest (meta.content.take (min meta.content.length (m * 1048576))))) := by
      simp [hash_file, hmeta, hasher, hfeed]
    refine ⟨hok, ?_⟩
    intro hlen s hs
    rw [hok] at hs
    injection hs with hs
    subst hs
    exact ⟨by rw [hexEncode_length, hlen], hexEncode_lower _⟩
  · intro hnone
    simp [hash_file, hnone]

theorem hash_file_bounded_read_witness :
    hash_file (fun _ => List.replicate 64 0) [("f", .file ⟨[171], 5⟩)] "f" 1 =
      .ok (hexEncode ((fun _ => List.replicate 64 0)
        (([171] : List Nat).take (min 1 1048576)))) :=
  ((hash_file_bounded_read (fun _ => List.replicate 64 0)
    [("f", .file ⟨[171], 5⟩)] "f" 1 (by decide)).1 ⟨[171], 5⟩ rfl).1

/-! ## C5: destination-path computation cannot escape the destination root -/

theorem possible_backups_loop_sound (canon : String → Option String)
    (relative_path file_name : String) (dests : List String) :
    ∀ paths, possible_backups_loop canon relative_path file_name dests = .ok paths →
      ∀ pd ∈ paths.zip dests,
        pd.1 = pathJoin (pathJoin pd.2 (trimStartMatches relative_path "/")) file_name ∧
        ∀ par, pathParent pd.1 = some par →
          pathStartsWith (canonOr canon par) (canonOr canon pd.2) = true := by
  induction dests with
  | nil =>
    intro paths h pd hpd
    rw [possible_backups_loop] at h
    injection h with h
    subst h
    simp at hpd
  | cons d rest ih =>
    intro paths h pd hpd
    rw [possible_backups_loop] at h
    set bp := pathJoin (pathJoin d (trimStartMatches relative_path "/")) file_name with hbp
    by_cases hguard : (match pathParent bp with
        | some backup_parent => pathStartsWith (canonOr canon backup_parent) (canonOr canon d)
        | none => true) = true
    · rw [if_pos hguard] at h
      cases hrec : possible_backups_loop canon relative_path file_name rest with
      | error e => rw [hrec] at h; exact absurd h (by simp)
      | ok tail =>
        rw [hrec] at h
        injection h with h
        subst h
        rcases List.mem_cons.mp (by simpa using hpd) with hhead | htail
        · subst hhead
          refine ⟨rfl, ?_⟩
          intro par hpar
          rw [hpar] at hguard
          exact hguard
        · exact ih tail hrec pd htail
    · rw [if_neg hguard] at h
      exact absurd h (by simp)

/-- C5: `get_possible_backups` rejects the candidate with an error whenever
the computed relative path contains `..`, or the file name contains `..` or a
path separator; and every backup path it returns for a destination has a
canonicalized parent that starts (component-wise) with the canonicalized
destination root — no produced replica path resolves outside its
destination. -/
theorem get_possible_backups_no_escape (canon : String → Option String)
    (file_name file_path shared_path : String) (destinations : List String) :
    (containsSub (relPathOf file_path shared_path) ".." = true →
       ∃ e, get_possible_backups canon file_name file_path shared_path destinations =
         .error e) ∧
    (containsSub file_name ".." = true ∨ strContainsChar file_name '/' = true →
       ∃ e, get_possible_backups canon file_name file_path shared_path destinations =
         .error e) ∧
    (∀ paths,
       get_possible_backups canon file_name file_path shared_path destinations = .ok paths →
       ∀ pd ∈ paths.zip destinations, ∀ par, pathParent pd.1 = some par →
         pathStartsWith (canonOr canon par) (canonOr canon pd.2) = true) := by
  refine ⟨?_, ?_, ?_⟩
  · intro h
    refine ⟨.DirectoryRead
      ("Path traversal detected in relative path: " ++ relPathOf file_path shared_path), ?_⟩
    simp only [get_possible_backups]
    rw [if_pos h]
  · intro h
    by_cases h1 : containsSub (relPathOf file_path shared_path) ".." = true
    · refine ⟨.DirectoryRead
        ("Path traversal detected in relative path: " ++ relPathOf file_path shared_path), ?_⟩
      simp only [get_possible_backups]
      rw [if_pos h1]
    · have h2 : (containsSub file_name ".." || strContainsChar file_name '/') = true := by
        rcases h with h | h <;> simp [h]
      refine ⟨.DirectoryRead ("Invalid file name detected: " ++ file_name), ?_⟩
      simp only [get_possible_backups]
      rw [if_neg h1, if_pos h2]
  · intro paths hok pd hpd par hpar
    simp only [get_possible_backups] at hok
    by_cases h1 : containsSub (relPathOf file_path shared_path) ".." = true
    · rw [if_pos h1] at hok; exact absurd hok (by simp)
    · rw [if_neg h1] at hok
      by_cases h2 : (containsSub file_name ".." || strContainsChar file_name '/') = true
      · rw [if_pos h2] at hok; exact absurd hok (by simp)
      · rw [if_neg h2] at hok
        exact (possible_backups_loop_sound canon _ file_name destinations paths hok
          pd hpd).2 par hpar

theorem get_possible_backups_no_escape_witness :
    (∃ e, get_possible_backups (fun _ => none) "a.txt" "/s/../root" "/s" ["/d"] =
       .error e) ∧
    (∃ e, get_possible_backups (fun _ => none) "a..b" "/s/root" "/s/root" ["/d"] =
       .error e) ∧
    (∀ par, pathParent "/d/root/a.txt" = some par →
       pathStartsWith (canonOr (fun _ => none) par) (canonOr (fun _ => none) "/d") = true) := by
  refine ⟨?_, ?_, ?_⟩
  · exact (get_possible_backups_no_escape (fun _ => none) "a.txt" "/s/../root" "/s"
      ["/d"]).1 (by decide)
  · exact (get_possible_backups_no_escape (fun _ => none) "a..b" "/s/root" "/s/root"
      ["/d"]).2.1 (Or.inl (by decide))
  · intro par hpar
    exact (get_possible_backups_no_escape (fun _ => none) "a.txt" "/s/root" "/s/root"
      ["/d"]).2.2 ["/d/root/a.txt"] (by decide) ("/d/root/a.txt", "/d") (by decide) par hpar

/-! ## Lemmas about catalog rows and successful copies -/

theorem fsRead_eq_some (fs : FS) (p : String) (meta : FileMeta) :
    fsRead fs p = some meta ↔ fsLookup fs p = some (.file meta) := by
  unfold fsRead
  cases fsLookup fs p with
  | none => simp
  | some n => cases n <;> simp

theorem hash_file_fsWrite_self (digest : List Nat → List Nat) (fs : FS) (d : String)
    (m : FileMeta) (maxm : Nat) :
    hash_file digest (fsWrite fs d m) d maxm =
      .ok (hasher digest m.content (maxm * 1048576)) := by
  simp [hash_file, fsRead, fsLookup_fsWrite_self]

theorem create_backup_row_fsWrite (fs : FS) (d : String) (m : FileMeta)
    (prepped : PreppedBackup) (par : String) (hpar : pathParent d = some par) :
    create_backup_row (fsWrite fs d m) prepped d =
      .ok ⟨prepped.db_id, prepped.file_name, par, m.mtime⟩ := by
  simp [create_backup_row, get_file_last_modified, fsRead, fsLookup_fsWrite_self, hpar]

/-- A mode-NONE copy whose destination hash matches the prepped hash ends in
a replica-row upsert and the written file. -/
theorem backup_file_success (digest : List Nat → List Nat) (cfg : Config) (now : Nat)
    (cat : Catalog) (fs : FS) (prepped : PreppedBackup) (d par : String)
    (meta : FileMeta)
    (hpar : pathParent d = some par)
    (hsrc : fsRead fs prepped.source_file = some meta)
    (hh : hasher digest meta.content (cfg.max_mebibytes_for_hash * 1048576) =
      prepped.hash) :
    backup_file digest cfg .None now cat fs prepped d =
      (insert_backup_row cat ⟨prepped.db_id, prepped.file_name, par, now⟩,
       fsWrite fs d ⟨meta.content, now⟩, none) := by
  rw [backup_file, if_neg (by decide)]
  simp only [hpar, hsrc, hash_file_fsWrite_self]
  rw [if_pos (by simp [hh])]
  simp only [create_backup_row_fsWrite fs d ⟨meta.content, now⟩ prepped par hpar]

theorem append_cancel_self {α} (l d : List α) (h : l ++ d = l) : d = [] := by
  have hl := congrArg List.length h
  simp only [List.length_append] at hl
  exact List.eq_nil_of_length_eq_zero (by omega)

/-- "The catalog has a source row with this id and file name." -/
def hasSourceRow (cat : Catalog) (sid : Nat) (name : String) : Prop :=
  ∃ srow ∈ cat.sources, srow.id = sid ∧ srow.file_name = name

/-- "The catalog has a replica row with this name, parent directory and
source id." -/
def hasBackupRow (cat : Catalog) (nm pth : String) (sid : Nat) : Prop :=
  ∃ brow ∈ cat.backups, brow.file_name = nm ∧ brow.file_path = pth ∧
    brow.source_id = sid

theorem hasSourceRow_update_lm (cat : Catalog) (i lm : Nat) (sid : Nat) (n : String)
    (h : hasSourceRow cat sid n) :
    hasSourceRow (update_source_last_modified cat i lm) sid n := by
  obtain ⟨r, hmem, hid, hname⟩ := h
  refine ⟨if r.id == i then { r with last_modified := lm } else r, ?_, ?_, ?_⟩
  · simp only [update_source_last_modified]
    exact List.mem_map_of_mem _ hmem
  · by_cases hc : (r.id == i) = true
    · rw [if_pos hc]; exact hid
    · rw [if_neg hc]; exact hid
  · by_cases hc : (r.id == i) = true
    · rw [if_pos hc]; exact hname
    · rw [if_neg hc]; exact hname

theorem hasSourceRow_update_row (cat : Catalog) (i : Nat) (hash : String)
    (sz lm : Nat) (sid : Nat) (n : String) (h : hasSourceRow cat sid n) :
    hasSourceRow (update_source_row cat i hash sz lm) sid n := by
  obtain ⟨r, hmem, hid, hname⟩ := h
  refine ⟨if r.id == i then { r with hash := hash, file_size := sz, last_modified := lm }
    else r, ?_, ?_, ?_⟩
  · simp only [update_source_row]
    exact List.mem_map_of_mem _ hmem
  · by_cases hc : (r.id == i) = true
    · rw [if_pos hc]; exact hid
    · rw [if_neg hc]; exact hid
  · by_cases hc : (r.id == i) = true
    · rw [if_pos hc]; exact hname
    · rw [if_neg hc]; exact hname

theorem hasSourceRow_insert_source (cat : Catalog) (row : SourceRow) (sid : Nat)
    (n : String) (h : hasSourceRow cat sid n) :
    hasSourceRow (insert_source_row cat row).2 sid n := by
  obtain ⟨r, hmem, hid, hname⟩ := h
  rw [insert_source_row]
  cases select_source cat row.file_name row.file_path with
  | some existing =>
    refine ⟨if r.file_name == row.file_name && r.file_path == row.file_path then
      { r with hash := row.hash, file_size := row.file_size,
               last_modified := row.last_modified } else r, ?_, ?_, ?_⟩
    · exact List.mem_map_of_mem _ hmem
    · by_cases hc : (r.file_name == row.file_name && r.file_path == row.file_path) = true
      · rw [if_pos hc]; exact hid
      · rw [if_neg hc]; exact hid
    · by_cases hc : (r.file_name == row.file_name && r.file_path == row.file_path) = true
      · rw [if_pos hc]; exact hname
      · rw [if_neg hc]; exact hname
  | none =>
    exact ⟨r, List.mem_append_left _ hmem, hid, hname⟩

theorem insert_backup_row_sources (cat : Catalog) (row : BackupRow) :
    (insert_backup_row cat row).sources = cat.sources := by
  rw [insert_backup_row]
  cases cat.backups.find? (fun b =>
      b.file_name == row.file_name && b.file_path == row.file_path) <;> rfl

theorem hasBackupRow_insert_self (cat : Catalog) (row : BackupRow) :
    hasBackupRow (insert_backup_row cat row) row.file_name row.file_path
      row.source_id := by
  rw [insert_backup_row]
  cases hfind : cat.backups.find? (fun b =>
      b.file_name == row.file_name && b.file_path == row.file_path) with
  | none =>
    exact ⟨row, List.mem_append_right _ (List.mem_singleton.mpr rfl), rfl, rfl, rfl⟩
  | some b =>
    have hb := List.find?_some hfind
    have hmem := List.mem_of_find?_eq_some hfind
    simp only [Bool.and_eq_true, beq_iff_eq] at hb
    refine ⟨{ b with source_id := row.source_id, last_modified := row.last_modified },
      ?_, ?_, ?_, ?_⟩
    · have := List.mem_map_of_mem (fun b =>
        if b.file_name == row.file_name && b.file_path == row.file_path then
          { b with source_id := row.source_id, last_modified := row.last_modified }
        else b) hmem
      simpa [hb.1, hb.2] using this
    · exact hb.1
    · exact hb.2
    · rfl

theorem hasBackupRow_insert_pres (cat : Catalog) (row : BackupRow) (nm pth : String)
    (sid : Nat) (h : hasBackupRow cat nm pth sid)
    (hc : ¬(nm = row.file_name ∧ pth = row.file_path) ∨ sid = row.source_id) :
    hasBackupRow (insert_backup_row cat row) nm pth sid := by
  obtain ⟨b, hmem, hn, hp, hs⟩ := h
  rw [insert_backup_row]
  cases hfind : cat.backups.find? (fun b =>
      b.file_name == row.file_name && b.file_path == row.file_path) with
  | none => exact ⟨b, List.mem_append_left _ hmem, hn, hp, hs⟩
  | some b0 =>
    by_cases hkey : (b.file_name == row.file_name && b.file_path == row.file_path) = true
    · simp only [Bool.and_eq_true, beq_iff_eq] at hkey
      rcases hc with hne | hsid
      · exact absurd ⟨hn ▸ hkey.1, hp ▸ hkey.2⟩ hne
      · refine ⟨{ b with source_id := row.source_id, last_modified := row.last_modified },
          ?_, hn, hp, hsid.symm ▸ rfl⟩
        have := List.mem_map_of_mem (fun b =>
          if b.file_name == row.file_name && b.file_path == row.file_path then
            { b with source_id := row.source_id, last_modified := row.last_modified }
          else b) hmem
        simpa [hkey.1, hkey.2] using this
    · refine ⟨b, ?_, hn, hp, hs⟩
      have := List.mem_map_of_mem (fun b =>
        if b.file_name == row.file_name && b.file_path == row.file_path then
          { b with source_id := row.source_id, last_modified := row.last_modified }
        else b) hmem
      simpa [hkey] using this

theorem get_file_last_modified_ok (fs : FS) (c : String) (lm : Nat)
    (h : get_file_last_modified fs c = .ok lm) :
    ∃ meta, fsRead fs c = some meta ∧ meta.mtime = lm := by
  rw [get_file_last_modified] at h
  cases hr : fsRead fs c with
  | none => rw [hr] at h; exact absurd h (by simp)
  | some meta =>
    rw [hr] at h
    injection h with h
    exact ⟨meta, rfl, h⟩

theorem get_is_source_file_updated_preserves (digest : List Nat → List Nat)
    (cfg : Config) (mode : DryRunMode) (cat : Catalog) (fs : FS) (src : SourceRow)
    (c : String) (lm : Nat) (sid : Nat) (n : String) (h : hasSourceRow cat sid n) :
    hasSourceRow (get_is_source_file_updated digest cfg mode cat fs src c lm).2 sid n := by
  rw [get_is_source_file_updated]
  repeat' split
  all_goals first
    | exact h
    | exact hasSourceRow_update_lm _ _ _ _ _ h
    | exact hasSourceRow_update_row _ _ _ _ _ _ _ h

theorem prepare_single_preserves_sourceRow (digest : List Nat → List Nat)
    (canon : String → Option String) (cfg : Config) (mode : DryRunMode)
    (cat : Catalog) (fs : FS) (c sp : String) (sid : Nat) (n : String)
    (h : hasSourceRow cat sid n) :
    hasSourceRow (prepare_single_candidate digest canon cfg mode cat fs c sp).2 sid n := by
  rw [prepare_single_candidate]
  cases hfn : pathFileName c with
  | none => exact h
  | some filename =>
    simp only [hfn]
    cases hfp : pathParent c with
    | none => exact h
    | some filepath =>
      simp only [hfp]
      cases hlm : get_file_last_modified fs c with
      | error e => simp only [hlm]; exact h
      | ok lm =>
        simp only [hlm]
        cases hsz : get_file_size fs c with
        | error e => simp only [hsz]; exact h
        | ok sz =>
          simp only [hsz]
          cases hdb : (if mode.should_update_database = true then
              select_source cat filename filepath else none) with
          | some r =>
            simp only [hdb]
            have hpres := get_is_source_file_updated_preserves digest cfg mode cat fs r
              c lm sid n h
            cases hg : get_is_source_file_updated digest cfg mode cat fs r c lm with
            | mk res catm =>
              rw [hg] at hpres
              try simp only [hg]
              cases res with
              | error e => exact hpres
              | ok pr =>
                obtain ⟨upd, hsh⟩ := pr
                cases get_possible_backups canon filename filepath sp
                    cfg.backup_destinations with
                | error e => exact hpres
                | ok paths => exact hpres
          | none =>
            simp only [hdb]
            cases hh : (if mode.should_hash = true then
                hash_file digest fs c cfg.max_mebibytes_for_hash
              else Except.ok "dry-run-quick-no-hash") with
            | error e => simp only [hh]; exact h
            | ok hv =>
              simp only [hh]
              cases hmode : mode.should_update_database with
              | false =>
                simp only [hmode, Bool.false_eq_true, if_false]
                cases get_possible_backups canon filename filepath sp
                    cfg.backup_destinations with
                | error e => exact h
                | ok paths => exact h
              | true =>
                simp only [hmode, if_true]
                have hins := hasSourceRow_insert_source cat
                  ⟨0, filename, filepath, hv, sz, lm⟩ sid n h
                cases hi : insert_source_row cat ⟨0, filename, filepath, hv, sz, lm⟩ with
                | mk newId catm =>
                  rw [hi] at hins
                  try simp only [hi]
                  cases get_possible_backups canon filename filepath sp
                      cfg.backup_destinations with
                  | error e => exact hins
                  | ok paths => exact hins

theorem prepare_single_success_facts (digest : List Nat → List Nat)
    (canon : String → Option String) (cfg : Config) (cat : Catalog) (fs : FS)
    (c sp : String) (p : PreppedBackup) (cat' : Catalog)
    (hok : prepare_single_candidate digest canon cfg .None cat fs c sp = (.ok p, cat')) :
    (∃ meta, fsRead fs p.source_file = some meta) ∧
    hasSourceRow cat' p.db_id p.file_name := by
  rw [prepare_single_candidate] at hok
  cases hfn : pathFileName c with
  | none => rw [hfn] at hok; simp at hok
  | some filename =>
    simp only [hfn] at hok
    cases hfp : pathParent c with
    | none => rw [hfp] at hok; simp at hok
    | some filepath =>
      simp only [hfp] at hok
      cases hlm : get_file_last_modified fs c with
      | error e => rw [hlm] at hok; simp at hok
      | ok lm =>
        simp only [hlm] at hok
        cases hsz : get_file_size fs c with
        | error e => rw [hsz] at hok; simp at hok
        | ok sz =>
          simp only [hsz] at hok
          simp only [DryRunMode.should_update_database, DryRunMode.should_hash,
            if_true] at hok
          obtain ⟨meta, hmeta, _⟩ := get_file_last_modified_ok fs c lm hlm
          cases hsel0 : select_source cat filename filepath with
          | some r =>
            simp only [hsel0] at hok
            have hrmem : r ∈ cat.sources := by
              have := List.mem_of_find?_eq_some hsel0
              exact this
            have hrname : r.file_name = filename := by
              have := List.find?_some hsel0
              simp only [Bool.and_eq_true, beq_iff_eq] at this
              exact this.1
            have hrow : hasSourceRow cat r.id filename := ⟨r, hrmem, rfl, hrname⟩
            have hpres := get_is_source_file_updated_preserves digest cfg .None cat fs r
              c lm r.id filename hrow
            cases hg : get_is_source_file_updated digest cfg .None cat fs r c lm with
            | mk res catm =>
              rw [hg] at hpres
              simp only [hg] at hok
              cases res with
              | error e => simp at hok
              | ok pr =>
                obtain ⟨upd, hsh⟩ := pr
                cases hgp : get_possible_backups canon filename filepath sp
                    cfg.backup_destinations with
                | error e => rw [hgp] at hok; simp at hok
                | ok paths =>
                  rw [hgp] at hok
                  simp only [Prod.mk.injEq, Except.ok.injEq] at hok
                  obtain ⟨hp, hcat⟩ := hok
                  subst hcat
                  refine ⟨⟨meta, ?_⟩, ?_⟩
                  · rw [← hp]; exact hmeta
                  · rw [← hp]
                    exact hpres
          | none =>
            simp only [hsel0] at hok
            cases hh : hash_file digest fs c cfg.max_mebibytes_for_hash with
            | error e => rw [hh] at hok; simp at hok
            | ok hv =>
              simp only [hh] at hok
              have hins : insert_source_row cat ⟨0, filename, filepath, hv, sz, lm⟩ =
                  (cat.nextId,
                   { cat with
                      sources := cat.sources ++ [⟨cat.nextId, filename, filepath, hv,
                        sz, lm⟩],
                      nextId := cat.nextId + 1 }) := by
                rw [insert_source_row]
                simp only [hsel0]
              simp only [hins] at hok
              cases hgp : get_possible_backups canon filename filepath sp
                  cfg.backup_destinations with
              | error e => rw [hgp] at hok; simp at hok
              | ok paths =>
                rw [hgp] at hok
                simp only [Prod.mk.injEq, Except.ok.injEq] at hok
                obtain ⟨hp, hcat⟩ := hok
                subst hcat
                refine ⟨⟨meta, ?_⟩, ?_⟩
                · rw [← hp]; exact hmeta
                · rw [← hp]
                  exact ⟨⟨cat.nextId, filename, filepath, hv, sz, lm⟩,
                    List.mem_append_right _ (List.mem_singleton.mpr rfl), rfl, rfl⟩

theorem prepare_fold_facts (digest : List Nat → List Nat)
    (canon : String → Option String) (cfg : Config) (fs0 : FS) :
    ∀ (l : List (String × String)) (cat : Catalog) (ps : List PreppedBackup)
      (errs : List BackupError) (catF : Catalog) (psF : List PreppedBackup)
      (errsF : List BackupError),
      (l.foldl (fun acc sc =>
        match acc with
        | (cat, ps, errs) =>
          match prepare_single_candidate digest canon cfg .None cat fs0 sc.2 sc.1 with
          | (.ok p, cat') => (cat', ps ++ [p], errs)
          | (.error e, cat') => (cat', ps, errs ++ [e])) (cat, ps, errs) =
        (catF, psF, errsF)) →
      (∀ p ∈ ps, (∃ meta, fsRead fs0 p.source_file = some meta) ∧
        hasSourceRow cat p.db_id p.file_name) →
      ∀ p ∈ psF, (∃ meta, fsRead fs0 p.source_file = some meta) ∧
        hasSourceRow catF p.db_id p.file_name := by
  intro l
  induction l with
  | nil =>
    intro cat ps errs catF psF errsF hfold hinv
    rw [List.foldl_nil] at hfold
    injection hfold with h1 h2
    injection h2 with h2 h3
    subst h1; subst h2
    exact hinv
  | cons c t ih =>
    intro cat ps errs catF psF errsF hfold hinv
    rw [List.foldl_cons] at hfold
    cases hps : prepare_single_candidate digest canon cfg .None cat fs0 c.2 c.1 with
    | mk r cat1 =>
      cases r with
      | ok p =>
        simp only [hps] at hfold
        refine ih cat1 (ps ++ [p]) errs catF psF errsF hfold ?_
        intro q hq
        rcases List.mem_append.mp hq with hq | hq
        · obtain ⟨hmeta, hrow⟩ := hinv q hq
          have hpres := prepare_single_preserves_sourceRow digest canon cfg .None cat fs0
            c.2 c.1 q.db_id q.file_name hrow
          rw [hps] at hpres
          exact ⟨hmeta, hpres⟩
        · rw [List.mem_singleton.mp hq]
          exact prepare_single_success_facts digest canon cfg cat fs0 c.2 c.1 p cat1 hps
      | error e =>
        simp only [hps] at hfold
        refine ih cat1 ps (errs ++ [e]) catF psF errsF hfold ?_
        intro q hq
        obtain ⟨hmeta, hrow⟩ := hinv q hq
        have hpres := prepare_single_preserves_sourceRow digest canon cfg .None cat fs0
          c.2 c.1 q.db_id q.file_name hrow
        rw [hps] at hpres
        exact ⟨hmeta, hpres⟩

theorem prepare_phase_facts (digest : List Nat → List Nat)
    (canon : String → Option String) (cfg : Config) (cat0 : Catalog) (fs0 : FS)
    (cands : List (String × String)) (cat1 : Catalog) (preppeds : List PreppedBackup)
    (prepErrs : List BackupError)
    (hprep : prepare_backup_candidates digest canon cfg .None cat0 fs0 cands =
      (cat1, preppeds, prepErrs)) :
    ∀ p ∈ preppeds, (∃ meta, fsRead fs0 p.source_file = some meta) ∧
      hasSourceRow cat1 p.db_id p.file_name := by
  rw [prepare_backup_candidates] at hprep
  exact prepare_fold_facts digest canon cfg fs0 cands cat0 [] [] cat1 preppeds prepErrs
    hprep (by intro p hp; simp at hp)

theorem process_one_destination_errs (digest : List Nat → List Nat) (cfg : Config)
    (mode : DryRunMode) (now : Nat) (cat : Catalog) (fs : FS)
    (errs : List BackupError) (prepped : PreppedBackup) (p : String) :
    ∃ δ, (process_one_destination digest cfg mode now (cat, fs, errs) prepped p).2.2 =
      errs ++ δ := by
  rw [process_one_destination]
  by_cases hf : cfg.force_overwrite_backup = true
  · simp only [hf, if_true]
    by_cases hcp : mode.should_copy_files = true
    · simp only [hcp, if_true]
      cases hbf : backup_file digest cfg mode now cat fs prepped p with
      | mk cat' rest =>
        obtain ⟨fs', eo⟩ := rest
        cases eo with
        | some e => exact ⟨[e], rfl⟩
        | none => exact ⟨[], by simp⟩
    · simp only [hcp, Bool.false_eq_true, if_false]
      exact ⟨[], by simp⟩
  · simp only [hf, Bool.false_eq_true, if_false]
    cases hb : is_backup_required digest cfg mode cat fs prepped p with
    | mk r cat' =>
      cases r with
      | error e => exact ⟨[], by simp⟩
      | ok required =>
        cases required with
        | false => exact ⟨[], by simp⟩
        | true =>
          by_cases hcp : mode.should_copy_files = true
          · simp only [hcp, if_true]
            cases hbf : backup_file digest cfg mode now cat' fs prepped p with
            | mk cat'' rest =>
              obtain ⟨fs', eo⟩ := rest
              cases eo with
              | some e => exact ⟨[e], rfl⟩
              | none => exact ⟨[], by simp⟩
          · simp only [hcp, Bool.false_eq_true, if_false]
            exact ⟨[], by simp⟩

theorem foldl_destinations_errs (digest : List Nat → List Nat) (cfg : Config)
    (mode : DryRunMode) (now : Nat) (prepped : PreppedBackup) :
    ∀ (ds : List String) (st : Catalog × FS × List BackupError),
      ∃ δ, (ds.foldl
        (fun st p => process_one_destination digest cfg mode now st prepped p)
        st).2.2 = st.2.2 ++ δ := by
  intro ds
  induction ds with
  | nil => intro st; exact ⟨[], by simp⟩
  | cons d t ih =>
    intro st
    rw [List.foldl_cons]
    obtain ⟨cat, fs, errs⟩ := st
    obtain ⟨δ1, h1⟩ := process_one_destination_errs digest cfg mode now cat fs errs
      prepped d
    obtain ⟨δ2, h2⟩ := ih (process_one_destination digest cfg mode now (cat, fs, errs)
      prepped d)
    exact ⟨δ1 ++ δ2, by rw [h2, h1, List.append_assoc]⟩

theorem process_candidate_errs (digest : List Nat → List Nat) (cfg : Config)
    (mode : DryRunMode) (now : Nat) (st : Catalog × FS × List BackupError)
    (prepped : PreppedBackup) :
    ∃ δ, (process_candidate_backups digest cfg mode now st prepped).2.2 =
      st.2.2 ++ δ := by
  rw [process_candidate_backups]
  exact foldl_destinations_errs digest cfg mode now prepped prepped.backup_paths st

theorem foldl_candidates_errs (digest : List Nat → List Nat) (cfg : Config)
    (mode : DryRunMode) (now : Nat) :
    ∀ (l : List PreppedBackup) (st : Catalog × FS × List BackupError),
      ∃ δ, (l.foldl (process_candidate_backups digest cfg mode now) st).2.2 =
        st.2.2 ++ δ := by
  intro l
  induction l with
  | nil => intro st; exact ⟨[], by simp⟩
  | cons p t ih =>
    intro st
    rw [List.foldl_cons]
    obtain ⟨δ1, h1⟩ := process_candidate_errs digest cfg mode now st p
    obtain ⟨δ2, h2⟩ := ih (process_candidate_backups digest cfg mode now st p)
    exact ⟨δ1 ++ δ2, by rw [h2, h1, List.append_assoc]⟩

/-- On a fresh destination, the per-destination loop body always reaches
`backup_file` (in the force path directly, otherwise through a should-copy
decision that returns true without consulting the catalog). -/
theorem process_one_destination_of_backup_file (digest : List Nat → List Nat)
    (cfg : Config) (now : Nat) (cat : Catalog) (fs : FS) (errs : List BackupError)
    (prepped : PreppedBackup) (d : String) (hfresh : fsLookup fs d = none) :
    process_one_destination digest cfg .None now (cat, fs, errs) prepped d =
      match backup_file digest cfg .None now cat fs prepped d with
      | (cat', fs', some e) => (cat', fs', errs ++ [e])
      | (cat', fs', none) => (cat', fs', errs) := by
  have hibr : is_backup_required digest cfg .None cat fs prepped d = (.ok true, cat) := by
    simp [is_backup_required, fsExists, fsExistsResult, hfresh]
  rw [process_one_destination]
  by_cases hf : cfg.force_overwrite_backup = true
  · simp only [hf, if_true, show DryRunMode.None.should_copy_files = true from rfl,
      if_true]
  · simp only [hf, Bool.false_eq_true, if_false, hibr, if_true,
      show DryRunMode.None.should_copy_files = true from rfl]

/-- A fresh destination whose processing produced no error was written with
the source's content, its parent is defined, the prepped hash matched, and a
replica-row upsert happened. -/
theorem process_one_destination_fresh_success (digest : List Nat → List Nat)
    (cfg : Config) (now : Nat) (cat : Catalog) (fs : FS) (errs : List BackupError)
    (prepped : PreppedBackup) (d : String) (meta : FileMeta)
    (hfresh : fsLookup fs d = none)
    (hsrc : fsRead fs prepped.source_file = some meta)
    (hno : (process_one_destination digest cfg .None now (cat, fs, errs) prepped
      d).2.2 = errs) :
    ∃ par, pathParent d = some par ∧
      hasher digest meta.content (cfg.max_mebibytes_for_hash * 1048576) =
        prepped.hash ∧
      process_one_destination digest cfg .None now (cat, fs, errs) prepped d =
        (insert_backup_row cat ⟨prepped.db_id, prepped.file_name, par, now⟩,
         fsWrite fs d ⟨meta.content, now⟩, errs) := by
  rw [process_one_destination_of_backup_file digest cfg now cat fs errs prepped d
    hfresh] at hno ⊢
  cases hp : pathParent d with
  | none =>
    have hbf : backup_file digest cfg .None now cat fs prepped d =
        (cat, fs, some (.DirectoryRead ("No parent directory for " ++ d))) := by
      rw [backup_file, if_neg (by decide)]
      simp only [hp]
    rw [hbf] at hno
    exact absurd (append_cancel_self errs _ hno) (by simp)
  | some par =>
    by_cases hh : hasher digest meta.content (cfg.max_mebibytes_for_hash * 1048576) =
        prepped.hash
    · have hbf := backup_file_success digest cfg now cat fs prepped d par meta hp
        hsrc hh
      rw [hbf]
      exact ⟨par, rfl, hh, rfl⟩
    · have hbf : backup_file digest cfg .None now cat fs prepped d =
          (cat, fsRemove (fsWrite fs d ⟨meta.content, now⟩) d,
           some (.DirectoryRead ("Backup verification failed for " ++ d))) := by
        rw [backup_file, if_neg (by decide)]
        simp only [hp, hsrc, hash_file_fsWrite_self]
        rw [if_neg (by simp [hh])]
      rw [hbf] at hno
      exact absurd (append_cancel_self errs _ hno) (by simp)

/-- Processing the destination list of one `PreppedBackup` over fresh,
distinct destinations that avoid the source file: every destination gets the
source's content and a replica row; everything else is untouched. -/
theorem copy_destinations_fresh (digest : List Nat → List Nat) (cfg : Config)
    (now : Nat) (prepped : PreppedBackup) (meta : FileMeta) :
    ∀ (ds : List String) (cat : Catalog) (fs : FS) (errs : List BackupError)
      (cat' : Catalog) (fs' : FS),
      (ds.foldl (fun st p => process_one_destination digest cfg .None now st prepped p)
        (cat, fs, errs) = (cat', fs', errs)) →
      (∀ d ∈ ds, fsLookup fs d = none) →
      ds.Nodup →
      prepped.source_file ∉ ds →
      fsRead fs prepped.source_file = some meta →
      (∀ d ∈ ds, fsLookup fs' d = some (.file ⟨meta.content, now⟩) ∧
        ∃ par, pathParent d = some par ∧
          hasBackupRow cat' prepped.file_name par prepped.db_id) ∧
      (∀ x, x ∉ ds → fsLookup fs' x = fsLookup fs x) ∧
      cat'.sources = cat.sources ∧
      (∀ nm pth sid, hasBackupRow cat nm pth sid →
        ((sid = prepped.db_id ∧ nm = prepped.file_name) ∨
          (∀ d ∈ ds, ¬(nm = prepped.file_name ∧ pathParent d = some pth))) →
        hasBackupRow cat' nm pth sid) := by
  intro ds
  induction ds with
  | nil =>
    intro cat fs errs cat' fs' hfold hfr hnd hsrcnot hsrc
    rw [List.foldl_nil] at hfold
    injection hfold with h1 h2
    injection h2 with h2 h3
    subst h1; subst h2
    exact ⟨by simp, fun x _ => rfl, rfl, fun nm pth sid h _ => h⟩
  | cons d t ih =>
    intro cat fs errs cat' fs' hfold hfr hnd hsrcnot hsrc
    rw [List.foldl_cons] at hfold
    have hfr_d : fsLookup fs d = none := hfr d (by simp)
    obtain ⟨δ1, h1⟩ := process_one_destination_errs digest cfg .None now cat fs errs
      prepped d
    obtain ⟨δ2, h2⟩ := foldl_destinations_errs digest cfg .None now prepped t
      (process_one_destination digest cfg .None now (cat, fs, errs) prepped d)
    rw [hfold, h1] at h2
    have hlen := congrArg List.length h2
    simp only [List.length_append] at hlen
    have hδ1 : δ1 = [] := List.eq_nil_of_length_eq_zero (by omega)
    subst hδ1
    have hno : (process_one_destination digest cfg .None now (cat, fs, errs) prepped
        d).2.2 = errs := by
      rw [h1]; simp
    obtain ⟨par, hpar, hh, hstep⟩ := process_one_destination_fresh_success digest cfg
      now cat fs errs prepped d meta hfr_d hsrc hno
    rw [hstep] at hfold
    set catm := insert_backup_row cat ⟨prepped.db_id, prepped.file_name, par, now⟩
      with hcatm
    set fsm := fsWrite fs d ⟨meta.content, now⟩ with hfsm
    have hd_not_t : d ∉ t := (List.nodup_cons.mp hnd).1
    have hfr' : ∀ e ∈ t, fsLookup fsm e = none := by
      intro e he
      have hne : e ≠ d := fun hc => hd_not_t (hc ▸ he)
      rw [hfsm, fsLookup_fsWrite_ne fs d e _ hne]
      exact hfr e (by simp [he])
    have hnd' := (List.nodup_cons.mp hnd).2
    have hsrcnot' : prepped.source_file ∉ t := fun hc => hsrcnot (by simp [hc])
    have hsrcd : prepped.source_file ≠ d := fun hc => hsrcnot (by simp [hc])
    have hsrc' : fsRead fsm prepped.source_file = some meta := by
      rw [fsRead_eq_some] at hsrc ⊢
      rw [hfsm, fsLookup_fsWrite_ne fs d _ _ hsrcd]
      exact hsrc
    obtain ⟨hconc1, hconc2, hconc3, hconc4⟩ := ih catm fsm errs cat' fs' hfold hfr'
      hnd' hsrcnot' hsrc'
    refine ⟨?_, ?_, ?_, ?_⟩
    · intro e he
      rcases List.mem_cons.mp he with rfl | he'
      · constructor
        · rw [hconc2 e hd_not_t, hfsm, fsLookup_fsWrite_self]
        · refine ⟨par, hpar, ?_⟩
          have hself : hasBackupRow catm prepped.file_name par prepped.db_id := by
            rw [hcatm]
            exact hasBackupRow_insert_self cat
              ⟨prepped.db_id, prepped.file_name, par, now⟩
          exact hconc4 prepped.file_name par prepped.db_id hself (Or.inl ⟨rfl, rfl⟩)
      · exact hconc1 e he'
    · intro x hx
      have hxd : x ≠ d := fun hc => hx (by simp [hc])
      have hxt : x ∉ t := fun hc => hx (by simp [hc])
      rw [hconc2 x hxt, hfsm, fsLookup_fsWrite_ne fs d x _ hxd]
    · rw [hconc3, hcatm, insert_backup_row_sources]
    · intro nm pth sid hb hcond
      have hb1 : hasBackupRow catm nm pth sid := by
        rw [hcatm]
        apply hasBackupRow_insert_pres cat _ nm pth sid hb
        rcases hcond with ⟨hsid, _⟩ | hall
        · exact Or.inr hsid
        · refine Or.inl ?_
          rintro ⟨hnm, hpth⟩
          exact hall d (by simp) ⟨hnm, by rw [hpar, hpth]⟩
      apply hconc4 nm pth sid hb1
      rcases hcond with hl | hall
      · exact Or.inl hl
      · exact Or.inr (fun e he => hall e (by simp [he]))

/-- The whole copy phase over fresh, pairwise-distinct destinations that
avoid every source file and have pairwise-distinct replica-row keys. -/
theorem copy_fold_fresh (digest : List Nat → List Nat) (cfg : Config) (now : Nat) :
    ∀ (ps : List PreppedBackup) (cat : Catalog) (fs : FS) (errs : List BackupError)
      (cat' : Catalog) (fs' : FS),
      (ps.foldl (process_candidate_backups digest cfg .None now) (cat, fs, errs) =
        (cat', fs', errs)) →
      (∀ p ∈ ps, ∀ d ∈ p.backup_paths, fsLookup fs d = none) →
      ((ps.map (fun p => p.backup_paths)).flatten).Nodup →
      (∀ p ∈ ps, ∀ q ∈ ps, ∀ d ∈ p.backup_paths, d ≠ q.source_file) →
      (∀ p ∈ ps, ∃ meta, fsRead fs p.source_file = some meta) →
      ((ps.map (fun p =>
        p.backup_paths.map (fun d => (p.file_name, pathParent d)))).flatten).Nodup →
      (∀ p ∈ ps, ∀ d ∈ p.backup_paths,
        (∃ meta, fsRead fs p.source_file = some meta ∧
          fsLookup fs' d = some (.file ⟨meta.content, now⟩)) ∧
        ∃ par, pathParent d = some par ∧
          hasBackupRow cat' p.file_name par p.db_id) ∧
      (∀ x, (∀ p ∈ ps, x ∉ p.backup_paths) → fsLookup fs' x = fsLookup fs x) ∧
      cat'.sources = cat.sources ∧
      (∀ nm pth sid, hasBackupRow cat nm pth sid →
        (∀ q ∈ ps, ∀ e ∈ q.backup_paths, ¬(nm = q.file_name ∧ pathParent e = some pth)) →
        hasBackupRow cat' nm pth sid) := by
  intro ps
  induction ps with
  | nil =>
    intro cat fs errs cat' fs' hfold hfr hnodup hdisj hread hbkeys
    rw [List.foldl_nil] at hfold
    injection hfold with h1 h2
    injection h2 with h2 h3
    subst h1; subst h2
    exact ⟨by simp, fun x _ => rfl, rfl, fun nm pth sid h _ => h⟩
  | cons p t ih =>
    intro cat fs errs cat' fs' hfold hfr hnodup hdisj hread hbkeys
    rw [List.foldl_cons] at hfold
    obtain ⟨δ1, h1⟩ := process_candidate_errs digest cfg .None now (cat, fs, errs) p
    obtain ⟨δ2, h2⟩ := foldl_candidates_errs digest cfg .None now t
      (process_candidate_backups digest cfg .None now (cat, fs, errs) p)
    rw [hfold, h1] at h2
    have hlen := congrArg List.length h2
    simp only [List.length_append] at hlen
    have hδ1 : δ1 = [] := List.eq_nil_of_length_eq_zero (by omega)
    subst hδ1
    cases hstep : process_candidate_backups digest cfg .None now (cat, fs, errs) p with
    | mk catm rest =>
      obtain ⟨fsm, errsm⟩ := rest
      have herrm : errsm = errs := by
        have h1' := h1
        rw [hstep] at h1'
        simpa using h1'
      subst errsm
      rw [hstep] at hfold
      simp only [List.map_cons, List.flatten_cons] at hnodup hbkeys
      obtain ⟨hnd_head, hnd_rest, hnd_disj⟩ := List.nodup_append.mp hnodup
      obtain ⟨hbk_head, hbk_rest, hbk_disj⟩ := List.nodup_append.mp hbkeys
      obtain ⟨meta, hmeta⟩ := hread p (by simp)
      have hstep' := hstep
      rw [process_candidate_backups] at hstep'
      have hsrcnot : p.source_file ∉ p.backup_paths := by
        intro hc
        exact (hdisj p (by simp) p (by simp) p.source_file hc) rfl
      obtain ⟨c1, c2, c3, c4⟩ := copy_destinations_fresh digest cfg now p meta
        p.backup_paths cat fs errs catm fsm hstep' (hfr p (by simp)) hnd_head
        hsrcnot hmeta
      have hfr' : ∀ q ∈ t, ∀ e ∈ q.backup_paths, fsLookup fsm e = none := by
        intro q hq e he
        have hemem : e ∈ (t.map (fun p => p.backup_paths)).flatten :=
          List.mem_flatten.mpr ⟨q.backup_paths, List.mem_map_of_mem _ hq, he⟩
        have hnotin : e ∉ p.backup_paths := fun hc => hnd_disj hc hemem
        rw [c2 e hnotin]
        exact hfr q (by simp [hq]) e he
      have hdisj' : ∀ q ∈ t, ∀ r ∈ t, ∀ e ∈ q.backup_paths, e ≠ r.source_file := by
        intro q hq r hr e he
        exact hdisj q (by simp [hq]) r (by simp [hr]) e he
      have hread' : ∀ q ∈ t, ∃ m, fsRead fsm q.source_file = some m := by
        intro q hq
        obtain ⟨m, hm⟩ := hread q (by simp [hq])
        refine ⟨m, ?_⟩
        rw [fsRead_eq_some] at hm ⊢
        have hnot : q.source_file ∉ p.backup_paths := by
          intro hc
          exact (hdisj p (by simp) q (by simp [hq]) q.source_file hc) rfl
        rw [c2 _ hnot]
        exact hm
      obtain ⟨C1t, C2t, C3t, C4t⟩ := ih catm fsm errs cat' fs' hfold hfr' hnd_rest
        hdisj' hread' hbk_rest
      refine ⟨?_, ?_, ?_, ?_⟩
      · intro q hq d hd
        rcases List.mem_cons.mp hq with hqp | hq'
        · subst hqp
          obtain ⟨hlook, par, hpar, hrow⟩ := c1 d hd
          constructor
          · refine ⟨meta, hmeta, ?_⟩
            have hd_not_rest : ∀ r ∈ t, d ∉ r.backup_paths := by
              intro r hr hc
              exact hnd_disj hd (List.mem_flatten.mpr
                ⟨r.backup_paths, List.mem_map_of_mem _ hr, hc⟩)
            rw [C2t d hd_not_rest]
            exact hlook
          · refine ⟨par, hpar, ?_⟩
            apply C4t q.file_name par q.db_id hrow
            intro r hr e he
            rintro ⟨hnm, hpe⟩
            have hpair_head : (q.file_name, pathParent d) ∈
                q.backup_paths.map (fun d => (q.file_name, pathParent d)) :=
              List.mem_map_of_mem _ hd
            have hpair_rest : (q.file_name, pathParent d) ∈
                (t.map (fun p =>
                  p.backup_paths.map (fun d => (p.file_name, pathParent d)))).flatten := by
              refine List.mem_flatten.mpr ⟨_, List.mem_map_of_mem _ hr, ?_⟩
              have hpair : (r.file_name, pathParent e) = (q.file_name, pathParent d) := by
                rw [hnm, hpe, hpar]
              rw [← hpair]
              exact List.mem_map_of_mem _ he
            exact hbk_disj hpair_head hpair_rest
        · obtain ⟨⟨m, hm, hlook⟩, par, hpar, hrow⟩ := C1t q hq' d hd
          refine ⟨⟨m, ?_, hlook⟩, par, hpar, hrow⟩
          rw [fsRead_eq_some] at hm ⊢
          have hnot : q.source_file ∉ p.backup_paths := by
            intro hc
            exact (hdisj p (by simp) q (by simp [hq']) q.source_file hc) rfl
          rw [c2 _ hnot] at hm
          exact hm
      · intro x hx
        have hx_t : ∀ r ∈ t, x ∉ r.backup_paths := fun r hr => hx r (by simp [hr])
        rw [C2t x hx_t, c2 x (hx p (by simp))]
      · rw [C3t, c3]
      · intro nm pth sid hb hcond
        have hb1 : hasBackupRow catm nm pth sid := by
          apply c4 nm pth sid hb
          exact Or.inr (fun d hd => hcond p (by simp) d hd)
        apply C4t nm pth sid hb1
        intro r hr e he
        exact hcond r (by simp [hr]) e he

/-! ## C1: the end-to-end round trip -/

/-- C1 (amended): a mode-NONE run that completes with empty error
accumulators and whose computed replica paths are fresh (not present before
the run), pairwise distinct, distinct from every source path, and with
pairwise distinct replica-row keys — a fresh backup — ends with every
replica's prefix hash equal to its source file's prefix hash, and with the
catalog containing a replica row keyed by (the source's file name, the
replica's parent directory) that references the source's catalog row. -/
theorem fresh_run_round_trip (digest : List Nat → List Nat)
    (canon : String → Option String) (cfg : Config) (now : Nat)
    (cat0 cat1 cat2 : Catalog) (fs0 fs2 : FS) (cands : List (String × String))
    (preppeds : List PreppedBackup)
    (hprep : prepare_backup_candidates digest canon cfg .None cat0 fs0 cands =
      (cat1, preppeds, []))
    (hcopy : preppeds.foldl (process_candidate_backups digest cfg .None now)
      (cat1, fs0, []) = (cat2, fs2, []))
    (hfresh : ∀ p ∈ preppeds, ∀ d ∈ p.backup_paths, fsLookup fs0 d = none)
    (hnodup : ((preppeds.map (fun p => p.backup_paths)).flatten).Nodup)
    (hdisj : ∀ p ∈ preppeds, ∀ q ∈ preppeds, ∀ d ∈ p.backup_paths,
      d ≠ q.source_file)
    (hbkeys : ((preppeds.map (fun p =>
      p.backup_paths.map (fun d => (p.file_name, pathParent d)))).flatten).Nodup) :
    backup_files digest canon cfg .None now cat0 fs0 cands = (cat2, fs2, [], []) ∧
    ∀ p ∈ preppeds, ∀ d ∈ p.backup_paths,
      (∃ hs, hash_file digest fs2 d cfg.max_mebibytes_for_hash = .ok hs ∧
        hash_file digest fs2 p.source_file cfg.max_mebibytes_for_hash = .ok hs) ∧
      (∃ par, pathParent d = some par ∧
        hasBackupRow cat2 p.file_name par p.db_id) ∧
      hasSourceRow cat2 p.db_id p.file_name := by
  have hfacts := prepare_phase_facts digest canon cfg cat0 fs0 cands cat1 preppeds []
    hprep
  have hread : ∀ p ∈ preppeds, ∃ meta, fsRead fs0 p.source_file = some meta :=
    fun p hp => (hfacts p hp).1
  obtain ⟨C1c, C2c, C3c, _⟩ := copy_fold_fresh digest cfg now preppeds cat1 fs0 []
    cat2 fs2 hcopy hfresh hnodup hdisj hread hbkeys
  constructor
  · rw [backup_files]
    simp only [hprep, hcopy]
  · intro p hp d hd
    obtain ⟨⟨meta, hmeta, hlook⟩, par, hpar, hrow⟩ := C1c p hp d hd
    refine ⟨⟨hasher digest meta.content (cfg.max_mebibytes_for_hash * 1048576),
      ?_, ?_⟩, ⟨par, hpar, hrow⟩, ?_⟩
    · have hr2 : fsRead fs2 d = some ⟨meta.content, now⟩ :=
        (fsRead_eq_some _ _ _).mpr hlook
      simp [hash_file, hr2, hasher]
    · have hnotin : ∀ q ∈ preppeds, p.source_file ∉ q.backup_paths := by
        intro q hq hc
        exact (hdisj q hq p hp p.source_file hc) rfl
      have hr2 : fsRead fs2 p.source_file = some meta := by
        rw [fsRead_eq_some] at hmeta ⊢
        rw [C2c p.source_file hnotin]
        exact hmeta
      simp [hash_file, hr2, hasher]
    · obtain ⟨srow, hmem, hid, hname⟩ := (hfacts p hp).2
      exact ⟨srow, by rw [C3c]; exact hmem, hid, hname⟩

theorem fresh_run_round_trip_witness :
    backup_files (fun l => l) (fun _ => none) ⟨1, ["/d"], true, false, false⟩ .None 99
      ⟨[], [], 1⟩ [("/s/root/a.txt", .file ⟨[7], 50⟩)] [("/s/root", "/s/root/a.txt")] =
      (⟨[⟨1, "a.txt", "/s/root", "07", 1, 50⟩], [⟨1, "a.txt", "/d/root", 99⟩], 2⟩,
       [("/d/root/a.txt", .file ⟨[7], 99⟩), ("/s/root/a.txt", .file ⟨[7], 50⟩)],
       [], []) :=
  (fresh_run_round_trip (fun l => l) (fun _ => none) ⟨1, ["/d"], true, false, false⟩ 99
    ⟨[], [], 1⟩ ⟨[⟨1, "a.txt", "/s/root", "07", 1, 50⟩], [], 2⟩
    ⟨[⟨1, "a.txt", "/s/root", "07", 1, 50⟩], [⟨1, "a.txt", "/d/root", 99⟩], 2⟩
    [("/s/root/a.txt", .file ⟨[7], 50⟩)]
    [("/d/root/a.txt", .file ⟨[7], 99⟩), ("/s/root/a.txt", .file ⟨[7], 50⟩)]
    [("/s/root", "/s/root/a.txt")]
    [⟨1, "/s/root/a.txt", "a.txt", ["/d/root/a.txt"], "07", 1, 50, true⟩]
    (by decide) (by decide) (by decide) (by decide) (by decide) (by decide)).1

/-- C1 counterexample to the claim as frozen: a mode-NONE run over a stale
catalog (the source row records an old hash and a future mtime; the replica
row and destination file match that stale hash) completes with empty error
accumulators yet leaves the destination's prefix hash different from the
source's prefix hash — the claim needs a freshness/consistency premise. -/
theorem stale_catalog_breaks_round_trip :
    ((backup_files (fun l => l) (fun _ => none) ⟨1, ["/d"], true, false, false⟩ .None
        200 ⟨[⟨1, "a.txt", "/s/root", "01", 1, 100⟩], [⟨1, "a.txt", "/d/root", 55⟩], 2⟩
        [("/s/root/a.txt", .file ⟨[2], 50⟩), ("/d/root/a.txt", .file ⟨[1], 60⟩)]
        [("/s/root", "/s/root/a.txt")]).2.2 = ([], [])) ∧
    (hash_file (fun l => l)
        (backup_files (fun l => l) (fun _ => none) ⟨1, ["/d"], true, false, false⟩ .None
          200 ⟨[⟨1, "a.txt", "/s/root", "01", 1, 100⟩], [⟨1, "a.txt", "/d/root", 55⟩], 2⟩
          [("/s/root/a.txt", .file ⟨[2], 50⟩), ("/d/root/a.txt", .file ⟨[1], 60⟩)]
          [("/s/root", "/s/root/a.txt")]).2.1 "/d/root/a.txt" 1 ≠
      hash_file (fun l => l)
        (backup_files (fun l => l) (fun _ => none) ⟨1, ["/d"], true, false, false⟩ .None
          200 ⟨[⟨1, "a.txt", "/s/root", "01", 1, 100⟩], [⟨1, "a.txt", "/d/root", 55⟩], 2⟩
          [("/s/root/a.txt", .file ⟨[2], 50⟩), ("/d/root/a.txt", .file ⟨[1], 60⟩)]
          [("/s/root", "/s/root/a.txt")]).2.1 "/s/root/a.txt" 1) := by
  decide

/-! ## C2: the should-copy decision table -/

/-- The should-copy decision exactly as the claim states it (spec side):
true when no file exists at `d`; for an existing replica row, a current
replica (recorded `last_modified ≤` filesystem mtime, the prepped size equal
to the filesystem size, and the destination's prefix hash equal to the
recorded hash) means false; a recorded mtime newer than the filesystem
defers to `overwrite_backup_if_existing_is_newer`; with no replica row the
file is adopted (replica row inserted, no copy) when its size and prefix
hash match the source, and copied otherwise.  `none` marks situations the
claim does not describe (undecodable path names, failing catalog join). -/
def is_backup_required_spec (digest : List Nat → List Nat) (cfg : Config)
    (cat : Catalog) (fs : FS) (prepped : PreppedBackup) (d : String) :
    Option (Bool × Catalog) :=
  match fsRead fs d with
  | none => some (true, cat)
  | some meta =>
    match pathFileName d, pathParent d with
    | some n, some par =>
      match select_backed_up_file cat n par with
      | .error _ => none
      | .ok (some replica) =>
        if replica.last_modified ≤ meta.mtime then
          if prepped.file_size == meta.content.length &&
              hasher digest meta.content (cfg.max_mebibytes_for_hash * 1048576) ==
                replica.hash then
            some (false, cat)
          else some (true, cat)
        else some (cfg.overwrite_backup_if_existing_is_newer, cat)
      | .ok none =>
        if prepped.file_size == meta.content.length &&
            hasher digest meta.content (cfg.max_mebibytes_for_hash * 1048576) ==
              prepped.hash then
          some (false,
            insert_backup_row cat ⟨prepped.db_id, prepped.file_name, par, meta.mtime⟩)
        else some (true, cat)
    | _, _ => none

/-- C2: with `force_overwrite_backup` false and in normal mode, the code's
`is_backup_required` realises exactly the decision table of the claim
(including the adopting replica-row insert), wherever the claim describes
the situation. -/
theorem is_backup_required_eq_spec (digest : List Nat → List Nat) (cfg : Config)
    (cat : Catalog) (fs : FS) (prepped : PreppedBackup) (d : String)
    (out : Bool × Catalog)
    (hforce : cfg.force_overwrite_backup = false)
    (hspec : is_backup_required_spec digest cfg cat fs prepped d = some out) :
    is_backup_required digest cfg .None cat fs prepped d = (.ok out.1, out.2) := by
  rw [is_backup_required_spec] at hspec
  cases hnode : fsLookup fs d with
  | none =>
    have hread : fsRead fs d = none := by simp [fsRead, hnode]
    have hex : fsExists fs d = false := by simp [fsExists, fsExistsResult, hnode]
    simp only [hread] at hspec
    injection hspec with hspec
    subst hspec
    simp [is_backup_required, hex]
  | some node =>
    cases node with
    | denied =>
      have hread : fsRead fs d = none := by simp [fsRead, hnode]
      have hex : fsExists fs d = false := by simp [fsExists, fsExistsResult, hnode]
      simp only [hread] at hspec
      injection hspec with hspec
      subst hspec
      simp [is_backup_required, hex]
    | file meta =>
      have hread : fsRead fs d = some meta := by simp [fsRead, hnode]
      have hex : fsExists fs d = true := by simp [fsExists, fsExistsResult, hnode]
      have hhf : hash_file digest fs d cfg.max_mebibytes_for_hash =
          .ok (hasher digest meta.content (cfg.max_mebibytes_for_hash * 1048576)) := by
        simp [hash_file, hread, hasher]
      simp only [hread] at hspec
      cases hn : pathFileName d with
      | none =>
        simp only [hn] at hspec
        exact absurd hspec (by simp)
      | some n =>
        cases hp : pathParent d with
        | none =>
          simp only [hn, hp] at hspec
          exact absurd hspec (by simp)
        | some par =>
          simp only [hn, hp] at hspec
          cases hsel : select_backed_up_file cat n par with
          | error u =>
            simp [hsel] at hspec
          | ok o =>
            cases o with
            | some replica =>
              by_cases hlm : replica.last_modified ≤ meta.mtime
              · by_cases hsz : prepped.file_size = meta.content.length
                · by_cases hh : hasher digest meta.content
                      (cfg.max_mebibytes_for_hash * 1048576) = replica.hash
                  · simp [hsel, hlm, hsz, hh] at hspec
                    subst hspec
                    simp [is_backup_required, existing_file_needs_updated, hex, hn, hp,
                      get_file_last_modified, get_file_size, hread, hsel, hhf,
                      DryRunMode.is_quick, DryRunMode.should_update_database,
                      hlm, hsz, hh.symm]
                  · have hflip : ¬(replica.hash = hasher digest meta.content
                        (cfg.max_mebibytes_for_hash * 1048576)) := fun hc => hh hc.symm
                    simp [hsel, hlm, hsz, hh] at hspec
                    subst hspec
                    simp [is_backup_required, existing_file_needs_updated, hex, hn, hp,
                      get_file_last_modified, get_file_size, hread, hsel, hhf,
                      DryRunMode.is_quick, DryRunMode.should_update_database,
                      hlm, hsz, hflip]
                · simp [hsel, hlm, hsz] at hspec
                  subst hspec
                  simp [is_backup_required, existing_file_needs_updated, hex, hn, hp,
                    get_file_last_modified, get_file_size, hread, hsel, hhf,
                    DryRunMode.is_quick, DryRunMode.should_update_database, hlm, hsz]
              · simp [hsel, hlm] at hspec
                subst hspec
                cases hov : cfg.overwrite_backup_if_existing_is_newer <;>
                  simp [is_backup_required, existing_file_needs_updated, hex, hn, hp,
                    get_file_last_modified, get_file_size, hread, hsel, hhf,
                    DryRunMode.is_quick, DryRunMode.should_update_database, hlm, hov]
            | none =>
              by_cases hsz : prepped.file_size = meta.content.length
              · by_cases hh : hasher digest meta.content
                    (cfg.max_mebibytes_for_hash * 1048576) = prepped.hash
                · have hcbr : create_backup_row fs prepped d =
                      .ok ⟨prepped.db_id, prepped.file_name, par, meta.mtime⟩ := by
                    simp [create_backup_row, get_file_last_modified, hread, hp]
                  simp [hsel, hsz, hh] at hspec
                  subst hspec
                  simp [is_backup_required, existing_file_needs_updated, hex, hn, hp,
                    get_file_last_modified, get_file_size, hread, hsel, hhf, hcbr,
                    DryRunMode.is_quick, DryRunMode.should_update_database,
                    hsz, hh.symm]
                · have hflip : ¬(prepped.hash = hasher digest meta.content
                      (cfg.max_mebibytes_for_hash * 1048576)) := fun hc => hh hc.symm
                  simp [hsel, hsz, hh] at hspec
                  subst hspec
                  simp [is_backup_required, existing_file_needs_updated, hex, hn, hp,
                    get_file_last_modified, get_file_size, hread, hsel, hhf,
                    DryRunMode.is_quick, DryRunMode.should_update_database, hsz, hflip]
              · simp [hsel, hsz] at hspec
                subst hspec
                simp [is_backup_required, existing_file_needs_updated, hex, hn, hp,
                  get_file_last_modified, get_file_size, hread, hsel, hhf,
                  DryRunMode.is_quick, DryRunMode.should_update_database, hsz]

theorem is_backup_required_eq_spec_witness :
    is_backup_required (fun _ => []) ⟨1, ["/d"], true, false, false⟩ .None ⟨[], [], 1⟩
      [] ⟨0, "/s/a.txt", "a.txt", ["/d/a.txt"], "h", 3, 7, true⟩ "/d/a.txt" =
      (.ok true, (⟨[], [], 1⟩ : Catalog)) :=
  is_backup_required_eq_spec (fun _ => []) ⟨1, ["/d"], true, false, false⟩ ⟨[], [], 1⟩
    [] ⟨0, "/s/a.txt", "a.txt", ["/d/a.txt"], "h", 3, 7, true⟩ "/d/a.txt"
    (true, ⟨[], [], 1⟩) rfl (by decide)

/-! ## C4: classification of a candidate with an existing source record -/

/-- The classifier decision for a candidate with an existing source record,
exactly as the claim states it (spec side): a catalog mtime at or ahead of
the filesystem short-cuts to "unchanged" with the recorded hash; a newer
candidate either trusts the change without rehashing
(`skip_source_hash_check_if_newer`) or is rehashed, after which an unchanged
hash and size update only the row's `last_modified`, and anything else
updates the full row.  `none` marks an unreadable candidate, which the claim
does not describe. -/
def classify_known_source_spec (digest : List Nat → List Nat) (cfg : Config)
    (cat : Catalog) (fs : FS) (src : SourceRow) (candidate : String)
    (fs_mtime : Nat) : Option ((Bool × String) × Catalog) :=
  match fsRead fs candidate with
  | none => none
  | some meta =>
    if fs_mtime ≤ src.last_modified then some ((false, src.hash), cat)
    else if cfg.skip_source_hash_check_if_newer then some ((true, src.hash), cat)
    else if hasher digest meta.content (cfg.max_mebibytes_for_hash * 1048576) == src.hash
        && meta.content.length == src.file_size then
      some ((false, hasher digest meta.content (cfg.max_mebibytes_for_hash * 1048576)),
        update_source_last_modified cat src.id fs_mtime)
    else
      some ((true, hasher digest meta.content (cfg.max_mebibytes_for_hash * 1048576)),
        update_source_row cat src.id
          (hasher digest meta.content (cfg.max_mebibytes_for_hash * 1048576))
          meta.content.length fs_mtime)

/-- C4: in normal mode `get_is_source_file_updated` realises exactly the
claim's classification table, including which catalog columns it updates. -/
theorem get_is_source_file_updated_eq_spec (digest : List Nat → List Nat)
    (cfg : Config) (cat : Catalog) (fs : FS) (src : SourceRow) (candidate : String)
    (fs_mtime : Nat) (out : (Bool × String) × Catalog)
    (hspec : classify_known_source_spec digest cfg cat fs src candidate fs_mtime =
      some out) :
    get_is_source_file_updated digest cfg .None cat fs src candidate fs_mtime =
      (.ok out.1, out.2) := by
  rw [classify_known_source_spec] at hspec
  cases hread : fsRead fs candidate with
  | none => simp [hread] at hspec
  | some meta =>
    have hhf : hash_file digest fs candidate cfg.max_mebibytes_for_hash =
        .ok (hasher digest meta.content (cfg.max_mebibytes_for_hash * 1048576)) := by
      simp [hash_file, hread, hasher]
    by_cases hlt : src.last_modified < fs_mtime
    · cases hskip : cfg.skip_source_hash_check_if_newer with
      | true =>
        simp [hread, hskip, show ¬(fs_mtime ≤ src.last_modified) from by omega] at hspec
        subst hspec
        simp [get_is_source_file_updated, get_file_size, hread, hlt, hskip]
      | false =>
        by_cases hh : hasher digest meta.content
            (cfg.max_mebibytes_for_hash * 1048576) = src.hash
        · by_cases hs2 : meta.content.length = src.file_size
          · simp [hread, hskip, show ¬(fs_mtime ≤ src.last_modified) from by omega,
              hh, hs2] at hspec
            subst hspec
            simp [get_is_source_file_updated, get_file_size, hread, hlt, hskip, hhf,
              DryRunMode.should_hash, DryRunMode.should_update_database, hh, hs2]
          · simp [hread, hskip, show ¬(fs_mtime ≤ src.last_modified) from by omega,
              hh, hs2] at hspec
            subst hspec
            simp [get_is_source_file_updated, get_file_size, hread, hlt, hskip, hhf,
              DryRunMode.should_hash, DryRunMode.should_update_database, hh, hs2]
        · simp [hread, hskip, show ¬(fs_mtime ≤ src.last_modified) from by omega,
            hh] at hspec
          subst hspec
          simp [get_is_source_file_updated, get_file_size, hread, hlt, hskip, hhf,
            DryRunMode.should_hash, DryRunMode.should_update_database, hh]
    · simp [hread, show fs_mtime ≤ src.last_modified from by omega] at hspec
      subst hspec
      simp [get_is_source_file_updated, get_file_size, hread, hlt]

theorem get_is_source_file_updated_eq_spec_witness :
    get_is_source_file_updated (fun _ => []) ⟨1, ["/d"], true, false, false⟩ .None
      ⟨[⟨1, "a.txt", "/s", "h", 1, 100⟩], [], 2⟩ [("/s/a.txt", .file ⟨[5], 50⟩)]
      ⟨1, "a.txt", "/s", "h", 1, 100⟩ "/s/a.txt" 50 =
      (.ok (false, "h"), (⟨[⟨1, "a.txt", "/s", "h", 1, 100⟩], [], 2⟩ : Catalog)) :=
  get_is_source_file_updated_eq_spec (fun _ => []) ⟨1, ["/d"], true, false, false⟩
    ⟨[⟨1, "a.txt", "/s", "h", 1, 100⟩], [], 2⟩ [("/s/a.txt", .file ⟨[5], 50⟩)]
    ⟨1, "a.txt", "/s", "h", 1, 100⟩ "/s/a.txt" 50
    ((false, "h"), ⟨[⟨1, "a.txt", "/s", "h", 1, 100⟩], [], 2⟩) (by decide)

/-! ## C6: dry-run modes write nothing -/

theorem dry_run_flags (mode : DryRunMode) (h : mode.is_dry_run = true) :
    mode.should_update_database = false ∧ mode.should_copy_files = false := by
  cases mode with
  | None => simp [DryRunMode.is_dry_run] at h
  | Quick => exact ⟨rfl, rfl⟩
  | Full => exact ⟨rfl, rfl⟩

theorem prepare_single_candidate_no_db_cat (digest : List Nat → List Nat)
    (canon : String → Option String) (cfg : Config) (mode : DryRunMode)
    (cat : Catalog) (fs : FS) (candidate shared_path : String)
    (hdb : mode.should_update_database = false) :
    (prepare_single_candidate digest canon cfg mode cat fs candidate shared_path).2 =
      cat := by
  rw [prepare_single_candidate]
  simp only [hdb, Bool.false_eq_true, if_false]
  cases hfn : pathFileName candidate with
  | none => rfl
  | some filename =>
    simp only [hfn]
    cases hfp : pathParent candidate with
    | none => rfl
    | some filepath =>
      simp only [hfp]
      cases hlm : get_file_last_modified fs candidate with
      | error e => simp only [hlm]
      | ok lm =>
        simp only [hlm]
        cases hsz : get_file_size fs candidate with
        | error e => simp only [hsz]
        | ok sz =>
          simp only [hsz]
          cases hh : (if mode.should_hash = true then
              hash_file digest fs candidate cfg.max_mebibytes_for_hash
            else Except.ok "dry-run-quick-no-hash") with
          | error e => simp only [hh]
          | ok hash =>
            simp only [hh]
            cases hgp : get_possible_backups canon filename filepath shared_path
                cfg.backup_destinations with
            | error e => simp only [hgp]
            | ok paths => simp only [hgp]

theorem existing_file_needs_updated_no_db_cat (digest : List Nat → List Nat)
    (cfg : Config) (mode : DryRunMode) (cat : Catalog) (fs : FS)
    (prepped : PreppedBackup) (back_up_path : String)
    (hdb : mode.should_update_database = false) :
    (existing_file_needs_updated digest cfg mode cat fs prepped back_up_path).2 =
      cat := by
  rw [existing_file_needs_updated]
  simp only [hdb, Bool.false_eq_true, if_false]
  repeat' split
  all_goals rfl

theorem is_backup_required_no_db_cat (digest : List Nat → List Nat) (cfg : Config)
    (mode : DryRunMode) (cat : Catalog) (fs : FS) (prepped : PreppedBackup)
    (back_up_path : String) (hdb : mode.should_update_database = false) :
    (is_backup_required digest cfg mode cat fs prepped back_up_path).2 = cat := by
  rw [is_backup_required]
  by_cases hex : fsExists fs back_up_path
  · rw [if_neg (by simp [hex])]
    exact existing_file_needs_updated_no_db_cat digest cfg mode cat fs prepped
      back_up_path hdb
  · rw [if_pos (by simp [hex])]

theorem backup_file_no_copy (digest : List Nat → List Nat) (cfg : Config)
    (mode : DryRunMode) (now : Nat) (cat : Catalog) (fs : FS)
    (prepped : PreppedBackup) (backup_path : String)
    (hcp : mode.should_copy_files = false) :
    backup_file digest cfg mode now cat fs prepped backup_path = (cat, fs, none) := by
  rw [backup_file]
  simp [hcp]

theorem process_one_destination_dry (digest : List Nat → List Nat) (cfg : Config)
    (mode : DryRunMode) (now : Nat) (cat : Catalog) (fs : FS)
    (errs : List BackupError) (prepped : PreppedBackup) (p : String)
    (h : mode.is_dry_run = true) :
    process_one_destination digest cfg mode now (cat, fs, errs) prepped p =
      (cat, fs, errs) := by
  obtain ⟨hdb, hcp⟩ := dry_run_flags mode h
  rw [process_one_destination]
  by_cases hf : cfg.force_overwrite_backup = true
  · simp [hf, hcp]
  · simp only [hf, Bool.false_eq_true, if_false]
    have hcat := is_backup_required_no_db_cat digest cfg mode cat fs prepped p hdb
    cases hb : is_backup_required digest cfg mode cat fs prepped p with
    | mk r cat' =>
      rw [hb] at hcat
      simp only at hcat
      subst hcat
      cases r with
      | error e => rfl
      | ok required => cases required <;> simp [hcp]

theorem process_candidate_backups_dry (digest : List Nat → List Nat) (cfg : Config)
    (mode : DryRunMode) (now : Nat) (st : Catalog × FS × List BackupError)
    (prepped : PreppedBackup) (h : mode.is_dry_run = true) :
    process_candidate_backups digest cfg mode now st prepped = st := by
  rw [process_candidate_backups]
  generalize prepped.backup_paths = ps
  induction ps generalizing st with
  | nil => rfl
  | cons p t ih =>
    obtain ⟨cat, fs, errs⟩ := st
    rw [List.foldl_cons, process_one_destination_dry digest cfg mode now cat fs errs
      prepped p h]
    exact ih (cat, fs, errs)

theorem foldl_process_candidate_dry (digest : List Nat → List Nat) (cfg : Config)
    (mode : DryRunMode) (now : Nat) (l : List PreppedBackup)
    (st : Catalog × FS × List BackupError) (h : mode.is_dry_run = true) :
    l.foldl (process_candidate_backups digest cfg mode now) st = st := by
  induction l generalizing st with
  | nil => rfl
  | cons p t ih =>
    rw [List.foldl_cons, process_candidate_backups_dry digest cfg mode now st p h]
    exact ih st

theorem prepare_backup_candidates_dry_cat (digest : List Nat → List Nat)
    (canon : String → Option String) (cfg : Config) (mode : DryRunMode)
    (cat : Catalog) (fs : FS) (cands : List (String × String))
    (hdb : mode.should_update_database = false) :
    (prepare_backup_candidates digest canon cfg mode cat fs cands).1 = cat := by
  rw [prepare_backup_candidates]
  have hstep : ∀ (l : List (String × String))
      (acc : Catalog × List PreppedBackup × List BackupError),
      (l.foldl (fun acc sc =>
        match acc with
        | (cat, ps, errs) =>
          match prepare_single_candidate digest canon cfg mode cat fs sc.2 sc.1 with
          | (.ok p, cat') => (cat', ps ++ [p], errs)
          | (.error e, cat') => (cat', ps, errs ++ [e])) acc).1 = acc.1 := by
    intro l
    induction l with
    | nil => intro acc; rfl
    | cons c t ih =>
      intro acc
      obtain ⟨cat0, ps, errs⟩ := acc
      rw [List.foldl_cons]
      have hcat := prepare_single_candidate_no_db_cat digest canon cfg mode cat0 fs
        c.2 c.1 hdb
      cases hps : prepare_single_candidate digest canon cfg mode cat0 fs c.2 c.1 with
      | mk r cat' =>
        rw [hps] at hcat
        simp only at hcat
        subst hcat
        cases r with
        | ok p =>
          rw [ih]
          simp only [hps]
        | error e =>
          rw [ih]
          simp only [hps]
  exact hstep cands (cat, [], [])

/-- C6: a run in a dry-run mode (QUICK or FULL) leaves both the filesystem
(so in particular every destination root) and the catalog exactly as it
found them: no file is created, modified or deleted and no row is inserted
or updated. -/
theorem dry_run_writes_nothing (digest : List Nat → List Nat)
    (canon : String → Option String) (cfg : Config) (mode : DryRunMode) (now : Nat)
    (cat : Catalog) (fs : FS) (cands : List (String × String))
    (h : mode.is_dry_run = true) :
    (backup_files digest canon cfg mode now cat fs cands).1 = cat ∧
    (backup_files digest canon cfg mode now cat fs cands).2.1 = fs := by
  obtain ⟨hdb, _⟩ := dry_run_flags mode h
  rw [backup_files]
  have hcat1 := prepare_backup_candidates_dry_cat digest canon cfg mode cat fs cands hdb
  cases hprep : prepare_backup_candidates digest canon cfg mode cat fs cands with
  | mk cat1 rest =>
    obtain ⟨preppeds, prepErrs⟩ := rest
    rw [hprep] at hcat1
    simp only at hcat1
    subst cat1
    simp only [foldl_process_candidate_dry digest cfg mode now preppeds (cat, fs, []) h]
    constructor <;> first | rfl | trivial

theorem dry_run_writes_nothing_witness :
    (backup_files (fun _ => []) (fun _ => none) ⟨1, ["/d"], true, false, false⟩ .Full 9
       ⟨[], [], 1⟩ [("/s/a.txt", .file ⟨[1], 5⟩)] [("/s", "/s/a.txt")]).1 =
      (⟨[], [], 1⟩ : Catalog) ∧
    (backup_files (fun _ => []) (fun _ => none) ⟨1, ["/d"], true, false, false⟩ .Full 9
       ⟨[], [], 1⟩ [("/s/a.txt", .file ⟨[1], 5⟩)] [("/s", "/s/a.txt")]).2.1 =
      [("/s/a.txt", .file ⟨[1], 5⟩)] :=
  dry_run_writes_nothing (fun _ => []) (fun _ => none) ⟨1, ["/d"], true, false, false⟩
    .Full 9 ⟨[], [], 1⟩ [("/s/a.txt", .file ⟨[1], 5⟩)] [("/s", "/s/a.txt")] rfl

/-! ## C3: verification failure deletes the replica and leaves the catalog
untouched for that destination -/

/-- C3 (amended): when a mode-NONE copy's post-copy verification hash
differs from the prepped source hash, `backup_file` deletes the destination
file and reports an error, performing no replica-row insert or update for
that destination: the catalog comes back exactly as it went in (a
pre-existing replica row is merely left as-is), the destination file does
not exist afterwards, and the should-copy decision on the resulting state
returns true, so the next run retries that destination. -/
theorem verification_failure_rolls_back (digest : List Nat → List Nat) (cfg : Config)
    (now : Nat) (cat : Catalog) (fs : FS) (prepped : PreppedBackup) (d par : String)
    (src_meta : FileMeta)
    (hpar : pathParent d = some par)
    (hsrc : fsRead fs prepped.source_file = some src_meta)
    (hmis : hasher digest src_meta.content (cfg.max_mebibytes_for_hash * 1048576) ≠
      prepped.hash) :
    backup_file digest cfg .None now cat fs prepped d =
      (cat, fsRemove (fsWrite fs d ⟨src_meta.content, now⟩) d,
       some (.DirectoryRead ("Backup verification failed for " ++ d))) ∧
    fsLookup (fsRemove (fsWrite fs d ⟨src_meta.content, now⟩) d) d = none ∧
    is_backup_required digest cfg .None cat
      (fsRemove (fsWrite fs d ⟨src_meta.content, now⟩) d) prepped d =
      (.ok true, cat) := by
  refine ⟨?_, fsLookup_fsRemove_self _ _, ?_⟩
  · rw [backup_file, if_neg (by decide)]
    simp only [hpar, hsrc]
    have hhf : hash_file digest (fsWrite fs d ⟨src_meta.content, now⟩) d
        cfg.max_mebibytes_for_hash =
        .ok (hasher digest src_meta.content (cfg.max_mebibytes_for_hash * 1048576)) := by
      simp [hash_file, fsRead, fsLookup_fsWrite_self, hasher]
    simp only [hhf]
    rw [if_neg (by simp [hmis])]
  · simp [is_backup_required, fsExists, fsExistsResult, fsLookup_fsRemove_self]

theorem verification_failure_rolls_back_witness :
    backup_file (fun l => l) ⟨1, ["/d/root"], true, false, false⟩ .None 100
      ⟨[⟨1, "a.txt", "/s/root", "ff", 1, 50⟩], [], 2⟩
      [("/s/root/a.txt", .file ⟨[1], 50⟩)]
      ⟨1, "/s/root/a.txt", "a.txt", ["/d/root/a.txt"], "ff", 1, 50, true⟩
      "/d/root/a.txt" =
      (⟨[⟨1, "a.txt", "/s/root", "ff", 1, 50⟩], [], 2⟩,
       fsRemove (fsWrite [("/s/root/a.txt", .file ⟨[1], 50⟩)] "/d/root/a.txt"
         ⟨[1], 100⟩) "/d/root/a.txt",
       some (.DirectoryRead ("Backup verification failed for " ++ "/d/root/a.txt"))) :=
  (verification_failure_rolls_back (fun l => l) ⟨1, ["/d/root"], true, false, false⟩ 100
    ⟨[⟨1, "a.txt", "/s/root", "ff", 1, 50⟩], [], 2⟩
    [("/s/root/a.txt", .file ⟨[1], 50⟩)]
    ⟨1, "/s/root/a.txt", "a.txt", ["/d/root/a.txt"], "ff", 1, 50, true⟩
    "/d/root/a.txt" "/d/root" ⟨[1], 50⟩ (by decide) (by decide) (by decide)).1

/-- C3 counterexample to the claim as frozen: when the catalog already held
a replica row for the destination (a re-copy of a corrupted replica), a
verification failure deletes the file and inserts/updates nothing — but the
catalog still holds a replica record keyed by that destination, contrary to
"the catalog holds no replica record for it". -/
theorem verification_failure_keeps_old_row :
    ((backup_file (fun l => l) ⟨1, ["/d/root"], true, false, false⟩ .None 100
        ⟨[⟨1, "a.txt", "/s/root", "ff", 1, 50⟩], [⟨1, "a.txt", "/d/root", 55⟩], 2⟩
        [("/s/root/a.txt", .file ⟨[1], 50⟩), ("/d/root/a.txt", .file ⟨[9], 60⟩)]
        ⟨1, "/s/root/a.txt", "a.txt", ["/d/root/a.txt"], "ff", 1, 50, true⟩
        "/d/root/a.txt").2.2.isSome = true) ∧
    (fsLookup (backup_file (fun l => l) ⟨1, ["/d/root"], true, false, false⟩ .None 100
        ⟨[⟨1, "a.txt", "/s/root", "ff", 1, 50⟩], [⟨1, "a.txt", "/d/root", 55⟩], 2⟩
        [("/s/root/a.txt", .file ⟨[1], 50⟩), ("/d/root/a.txt", .file ⟨[9], 60⟩)]
        ⟨1, "/s/root/a.txt", "a.txt", ["/d/root/a.txt"], "ff", 1, 50, true⟩
        "/d/root/a.txt").2.1 "/d/root/a.txt" = none) ∧
    ((backup_file (fun l => l) ⟨1, ["/d/root"], true, false, false⟩ .None 100
        ⟨[⟨1, "a.txt", "/s/root", "ff", 1, 50⟩], [⟨1, "a.txt", "/d/root", 55⟩], 2⟩
        [("/s/root/a.txt", .file ⟨[1], 50⟩), ("/d/root/a.txt", .file ⟨[9], 60⟩)]
        ⟨1, "/s/root/a.txt", "a.txt", ["/d/root/a.txt"], "ff", 1, 50, true⟩
        "/d/root/a.txt").1.backups = [⟨1, "a.txt", "/d/root", 55⟩]) := by
  decide

/-! ## C9: which per-destination errors reach the accumulator -/

/-- C9 (amended): during the copy phase, errors returned by `backup_file` —
copy failures and verification failures — are appended to the error
accumulator, in the force-overwrite path as well as in the normal path; an
error of the should-copy decision itself, however, is silently discarded by
the `if let Ok(required) = is_backup_required(…)` of `backup_files`: the
destination is skipped and no error is recorded.  The loop body is total, so
the run always completes. -/
theorem copy_phase_error_accumulation (digest : List Nat → List Nat) (cfg : Config)
    (mode : DryRunMode) (now : Nat) (cat : Catalog) (fs : FS)
    (errs : List BackupError) (prepped : PreppedBackup) (p : String) :
    (cfg.force_overwrite_backup = false →
      ∀ e cat', is_backup_required digest cfg mode cat fs prepped p = (.error e, cat') →
        process_one_destination digest cfg mode now (cat, fs, errs) prepped p =
          (cat', fs, errs)) ∧
    (cfg.force_overwrite_backup = false → mode.should_copy_files = true →
      ∀ cat1 cat2 fs2 e,
        is_backup_required digest cfg mode cat fs prepped p = (.ok true, cat1) →
        backup_file digest cfg mode now cat1 fs prepped p = (cat2, fs2, some e) →
        process_one_destination digest cfg mode now (cat, fs, errs) prepped p =
          (cat2, fs2, errs ++ [e])) ∧
    (cfg.force_overwrite_backup = true → mode.should_copy_files = true →
      ∀ cat2 fs2 e,
        backup_file digest cfg mode now cat fs prepped p = (cat2, fs2, some e) →
        process_one_destination digest cfg mode now (cat, fs, errs) prepped p =
          (cat2, fs2, errs ++ [e])) := by
  refine ⟨?_, ?_, ?_⟩
  · intro hf e cat' hb
    rw [process_one_destination]
    simp only [hf, Bool.false_eq_true, if_false, hb]
  · intro hf hcp cat1 cat2 fs2 e hb hbf
    rw [process_one_destination]
    simp only [hf, Bool.false_eq_true, if_false, hb, if_true, hcp, hbf]
  · intro hf hcp cat2 fs2 e hbf
    rw [process_one_destination]
    simp only [hf, if_true, hcp, hbf]

theorem copy_phase_error_accumulation_witness :
    process_one_destination (fun l => l) ⟨1, ["/d"], true, false, false⟩ .None 100
      (⟨[], [⟨99, "a.txt", "/d", 10⟩], 1⟩, [("/d/a.txt", .file ⟨[1, 2], 20⟩)], [])
      ⟨0, "/s/a.txt", "a.txt", ["/d/a.txt"], "xx", 2, 5, true⟩ "/d/a.txt" =
      (⟨[], [⟨99, "a.txt", "/d", 10⟩], 1⟩, [("/d/a.txt", .file ⟨[1, 2], 20⟩)], []) :=
  (copy_phase_error_accumulation (fun l => l) ⟨1, ["/d"], true, false, false⟩ .None 100
    ⟨[], [⟨99, "a.txt", "/d", 10⟩], 1⟩ [("/d/a.txt", .file ⟨[1, 2], 20⟩)] []
    ⟨0, "/s/a.txt", "a.txt", ["/d/a.txt"], "xx", 2, 5, true⟩ "/d/a.txt").1 rfl
    (.DatabaseQuery ("select backup " ++ "/d" ++ "/" ++ "a.txt"))
    ⟨[], [⟨99, "a.txt", "/d", 10⟩], 1⟩ (by decide)

/-- C9 counterexample to the claim as frozen: with a replica row whose
source row is missing (a failing catalog join), the should-copy decision
itself errors, yet the copy loop leaves the error accumulator empty — the
decision failure is not accumulated. -/
theorem decision_error_not_accumulated :
    ((process_candidate_backups (fun l => l) ⟨1, ["/d"], true, false, false⟩ .None 100
        (⟨[], [⟨99, "a.txt", "/d", 10⟩], 1⟩, [("/d/a.txt", .file ⟨[1, 2], 20⟩)], [])
        ⟨0, "/s/a.txt", "a.txt", ["/d/a.txt"], "xx", 2, 5, true⟩).2.2 = []) ∧
    ((is_backup_required (fun l => l) ⟨1, ["/d"], true, false, false⟩ .None
        ⟨[], [⟨99, "a.txt", "/d", 10⟩], 1⟩ [("/d/a.txt", .file ⟨[1, 2], 20⟩)]
        ⟨0, "/s/a.txt", "a.txt", ["/d/a.txt"], "xx", 2, 5, true⟩ "/d/a.txt").1 =
      .error (.DatabaseQuery ("select backup " ++ "/d" ++ "/" ++ "a.txt"))) := by
  decide

/-! ## C7: FULL dry-run versus NONE -/

/-- C7: the code contradicts the claim (and `DryRunMode::Full`'s own
documentation): because `prepare_single_candidate` gates the catalog SELECT
behind `should_update_database()`, a FULL dry-run never sees the existing
source row and classifies the candidate as a new source
(`source_changed = true`), while the same state in mode NONE classifies it
as unchanged (`source_changed = false`) — over a catalog that exactly
matches the filesystem. -/
theorem full_dry_run_differs_from_none :
    ((prepare_single_candidate (fun l => l) (fun _ => none)
        ⟨1, ["/d"], true, false, false⟩ .Full
        ⟨[⟨1, "a.txt", "/s/root", "07", 1, 100⟩], [], 2⟩
        [("/s/root/a.txt", .file ⟨[7], 50⟩)] "/s/root/a.txt" "/s/root").1.map
        (fun p => p.updated) = .ok true) ∧
    ((prepare_single_candidate (fun l => l) (fun _ => none)
        ⟨1, ["/d"], true, false, false⟩ .None
        ⟨[⟨1, "a.txt", "/s/root", "07", 1, 100⟩], [], 2⟩
        [("/s/root/a.txt", .file ⟨[7], 50⟩)] "/s/root/a.txt" "/s/root").1.map
        (fun p => p.updated) = .ok false) := by
  decide

/-! ## C10: a failing existence check counts as "absent" -/

/-- C10: when the `fs::exists` check on a destination itself fails (modelled
by a `denied` node), `is_backup_required` (and the re-check inside
`existing_file_needs_updated`) treats the destination as absent and returns
`Ok(true)` — copy required — instead of surfacing an error. -/
theorem exists_check_failure_means_copy (digest : List Nat → List Nat) (cfg : Config)
    (mode : DryRunMode) (cat : Catalog) (fs : FS) (prepped : PreppedBackup)
    (back_up_path : String) (h : fsLookup fs back_up_path = some .denied) :
    is_backup_required digest cfg mode cat fs prepped back_up_path = (.ok true, cat) ∧
    existing_file_needs_updated digest cfg mode cat fs prepped back_up_path =
      (.ok true, cat) := by
  have hex : fsExists fs back_up_path = false := by
    simp [fsExists, fsExistsResult, h]
  exact ⟨by simp [is_backup_required, hex], by simp [existing_file_needs_updated, hex]⟩

theorem exists_check_failure_means_copy_witness :
    is_backup_required (fun _ => []) ⟨1, [], false, false, false⟩ .None ⟨[], [], 1⟩
      [("d", FsNode.denied)] ⟨0, "s", "s", [], "", 0, 0, true⟩ "d" =
      (.ok true, (⟨[], [], 1⟩ : Catalog)) :=
  (exists_check_failure_means_copy (fun _ => []) ⟨1, [], false, false, false⟩ .None
    ⟨[], [], 1⟩ [("d", FsNode.denied)] ⟨0, "s", "s", [], "", 0, 0, true⟩ "d" rfl).1

end RHB


